import Mathlib

/-!
Shallow embedding of the ipns-utils repository (src/main.go) together with the
byte-level behaviour of the codec libraries it calls (encoding/base64,
go-multibase, go-multihash, mr-tron/base58, go-cid v0.0.5, the protobuf wire
codec generated for go-ipns pb.IpnsEntry, go-ipns record operations and
go-libp2p-pubsub-router KeyToTopic).  Go byte strings are modelled as
`List Nat` with entries below 256; Go `uint64` arithmetic is `Nat` with
explicit `% 2 ^ 64`; Go `int64` is `Int` with explicit conversions; fallible
Go functions return `Except`; a Go runtime panic (out-of-range slice,
nil-pointer dereference) is a distinguished error constructor.
-/

set_option maxRecDepth 1000000

/-- Go byte strings / byte slices: lists of byte values. -/
abbrev Bytes := List Nat

/-- The bytes of an ASCII string literal (UTF-8 agrees with ASCII here). -/
def bytesOfAscii (s : String) : Bytes := s.data.map Char.toNat

/-- Every entry of the list is a byte value. -/
def ByteOK (l : Bytes) : Prop := ∀ b ∈ l, b < 256

instance : DecidablePred ByteOK := fun l =>
  inferInstanceAs (Decidable (∀ b ∈ l, b < 256))

/-! ## Unsigned varints

`putUvarint` is the encoder used by the gogo-protobuf generated marshaller
(and by go-cid when building CIDv1 byte strings): little-endian groups of 7
bits, continuation bit 0x80.  `readUvarint` is the inlined decoder the gogo
generated `Unmarshal` uses: it refuses once the shift reaches 64 and
accumulates into a `uint64`, i.e. modulo `2 ^ 64`.  (go's `binary.Uvarint`,
used by go-cid, additionally rejects a 10th byte above 1 instead of silently
truncating; no input considered in this development reaches that corner.) -/

def putUvarintAux : Nat → Nat → Bytes
  | 0, _ => []
  | fuel + 1, n =>
    if n < 0x80 then [n] else (n % 0x80 + 0x80) :: putUvarintAux fuel (n / 0x80)

def putUvarint (n : Nat) : Bytes := putUvarintAux (n + 1) n

/-- Varint decoding loop: remaining bytes, current shift, accumulator.
Returns the decoded value (mod 2 ^ 64) and the unconsumed remainder. -/
def readUvarintLoop : Bytes → Nat → Nat → Option (Nat × Bytes)
  | [], _, _ => none
  | b :: rest, shift, acc =>
    if 64 ≤ shift then none
    else if b < 0x80 then some ((acc + b * 2 ^ shift) % 2 ^ 64, rest)
    else readUvarintLoop rest (shift + 7) (acc + b % 0x80 * 2 ^ shift)

def readUvarint (l : Bytes) : Option (Nat × Bytes) := readUvarintLoop l 0 0

/-! ## base64 raw-URL alphabet (encoding/base64 RawURLEncoding) -/

/-- Character of a 6-bit value in the URL-safe base64 alphabet. -/
def b64Char (v : Nat) : Nat :=
  if v < 26 then 65 + v
  else if v < 52 then 97 + (v - 26)
  else if v < 62 then 48 + (v - 52)
  else if v = 62 then 45
  else 95

/-- 6-bit value of an alphabet character; `none` on a character outside the
URL-safe alphabet (this is go's CorruptInputError case). -/
def b64Val (c : Nat) : Option Nat :=
  if 65 ≤ c ∧ c ≤ 90 then some (c - 65)
  else if 97 ≤ c ∧ c ≤ 122 then some (26 + (c - 97))
  else if 48 ≤ c ∧ c ≤ 57 then some (52 + (c - 48))
  else if c = 45 then some 62
  else if c = 95 then some 63
  else none

/-- base64.RawURLEncoding.EncodeToString: 3-byte groups to 4 characters, a
final group of 1 or 2 bytes to 2 or 3 characters, no padding. -/
def b64Encode : Bytes → Bytes
  | a :: b :: c :: rest =>
    b64Char (a / 4) :: b64Char (a % 4 * 16 + b / 16) ::
    b64Char (b % 16 * 4 + c / 64) :: b64Char (c % 64) :: b64Encode rest
  | [a, b] => [b64Char (a / 4), b64Char (a % 4 * 16 + b / 16), b64Char (b % 16 * 4)]
  | [a] => [b64Char (a / 4), b64Char (a % 4 * 16)]
  | [] => []

/-- base64.RawURLEncoding.DecodeString: inverse of `b64Encode`; fails on a
character outside the alphabet or on a remainder of length 1 (mod 4); being
the non-Strict decoder it ignores non-zero trailing bits. -/
def b64Decode : Bytes → Option Bytes
  | c0 :: c1 :: c2 :: c3 :: rest => do
    let v0 ← b64Val c0
    let v1 ← b64Val c1
    let v2 ← b64Val c2
    let v3 ← b64Val c3
    let tail ← b64Decode rest
    pure ((v0 * 4 + v1 / 16) :: (v1 % 16 * 16 + v2 / 4) :: (v2 % 4 * 64 + v3) :: tail)
  | [c0, c1, c2] => do
    let v0 ← b64Val c0
    let v1 ← b64Val c1
    let v2 ← b64Val c2
    pure [v0 * 4 + v1 / 16, v1 % 16 * 16 + v2 / 4]
  | [c0, c1] => do
    let v0 ← b64Val c0
    let v1 ← b64Val c1
    pure [v0 * 4 + v1 / 16]
  | [_] => none
  | [] => some []

/-! ## base32 lower-case no-padding (go-multibase prefix b) -/

/-- Character of a 5-bit value in the RFC 4648 lower-case alphabet. -/
def b32Char (v : Nat) : Nat := if v < 26 then 97 + v else 50 + (v - 26)

/-- 5-bit value of a lower-case RFC 4648 base32 character. -/
def b32Val (c : Nat) : Option Nat :=
  if 97 ≤ c ∧ c ≤ 122 then some (c - 97)
  else if 50 ≤ c ∧ c ≤ 55 then some (26 + (c - 50))
  else none

/-- RFC 4648 lower-case base32 without padding: 5-byte groups to 8
characters, final groups of 1/2/3/4 bytes to 2/4/5/7 characters. -/
def b32Encode : Bytes → Bytes
  | a :: b :: c :: d :: e :: rest =>
    b32Char (a / 8) :: b32Char (a % 8 * 4 + b / 64) :: b32Char (b / 2 % 32) ::
    b32Char (b % 2 * 16 + c / 16) :: b32Char (c % 16 * 2 + d / 128) ::
    b32Char (d / 4 % 32) :: b32Char (d % 4 * 8 + e / 32) :: b32Char (e % 32) ::
    b32Encode rest
  | [a, b, c, d] =>
    [b32Char (a / 8), b32Char (a % 8 * 4 + b / 64), b32Char (b / 2 % 32),
     b32Char (b % 2 * 16 + c / 16), b32Char (c % 16 * 2 + d / 128),
     b32Char (d / 4 % 32), b32Char (d % 4 * 8)]
  | [a, b, c] =>
    [b32Char (a / 8), b32Char (a % 8 * 4 + b / 64), b32Char (b / 2 % 32),
     b32Char (b % 2 * 16 + c / 16), b32Char (c % 16 * 2)]
  | [a, b] =>
    [b32Char (a / 8), b32Char (a % 8 * 4 + b / 64), b32Char (b / 2 % 32),
     b32Char (b % 2 * 16)]
  | [a] => [b32Char (a / 8), b32Char (a % 8 * 4)]
  | [] => []

/-- Inverse of `b32Encode`; fails on characters outside the alphabet or on a
remainder of length 1, 3 or 6 (mod 8); trailing bits are ignored as in go's
non-Strict decoder. -/
def b32Decode : Bytes → Option Bytes
  | c0 :: c1 :: c2 :: c3 :: c4 :: c5 :: c6 :: c7 :: rest => do
    let v0 ← b32Val c0
    let v1 ← b32Val c1
    let v2 ← b32Val c2
    let v3 ← b32Val c3
    let v4 ← b32Val c4
    let v5 ← b32Val c5
    let v6 ← b32Val c6
    let v7 ← b32Val c7
    let tail ← b32Decode rest
    pure ((v0 * 8 + v1 / 4) :: (v1 % 4 * 64 + v2 * 2 + v3 / 16) ::
      (v3 % 16 * 16 + v4 / 2) :: (v4 % 2 * 128 + v5 * 4 + v6 / 8) ::
      (v6 % 8 * 32 + v7) :: tail)
  | [c0, c1, c2, c3, c4, c5, c6] => do
    let v0 ← b32Val c0
    let v1 ← b32Val c1
    let v2 ← b32Val c2
    let v3 ← b32Val c3
    let v4 ← b32Val c4
    let v5 ← b32Val c5
    let v6 ← b32Val c6
    pure [v0 * 8 + v1 / 4, v1 % 4 * 64 + v2 * 2 + v3 / 16,
      v3 % 16 * 16 + v4 / 2, v4 % 2 * 128 + v5 * 4 + v6 / 8]
  | [c0, c1, c2, c3, c4] => do
    let v0 ← b32Val c0
    let v1 ← b32Val c1
    let v2 ← b32Val c2
    let v3 ← b32Val c3
    let v4 ← b32Val c4
    pure [v0 * 8 + v1 / 4, v1 % 4 * 64 + v2 * 2 + v3 / 16, v3 % 16 * 16 + v4 / 2]
  | [c0, c1, c2, c3] => do
    let v0 ← b32Val c0
    let v1 ← b32Val c1
    let v2 ← b32Val c2
    let v3 ← b32Val c3
    pure [v0 * 8 + v1 / 4, v1 % 4 * 64 + v2 * 2 + v3 / 16]
  | [c0, c1] => do
    let v0 ← b32Val c0
    let v1 ← b32Val c1
    pure [v0 * 8 + v1 / 4]
  | [_] | [_, _, _] | [_, _, _, _, _, _] => none
  | [] => some []

/-! ## base58btc (mr-tron/base58, used by go-multihash and go-cid) -/

/-- Character of a digit in the bitcoin base58 alphabet. -/
def b58Char (v : Nat) : Nat :=
  if v < 9 then 49 + v
  else if v < 17 then 65 + (v - 9)
  else if v < 22 then 74 + (v - 17)
  else if v < 33 then 80 + (v - 22)
  else if v < 44 then 97 + (v - 33)
  else 109 + (v - 44)

/-- Digit value of a bitcoin base58 alphabet character. -/
def b58Val (c : Nat) : Option Nat :=
  if 49 ≤ c ∧ c ≤ 57 then some (c - 49)
  else if 65 ≤ c ∧ c ≤ 72 then some (9 + (c - 65))
  else if 74 ≤ c ∧ c ≤ 78 then some (17 + (c - 74))
  else if 80 ≤ c ∧ c ≤ 90 then some (22 + (c - 80))
  else if 97 ≤ c ∧ c ≤ 107 then some (33 + (c - 97))
  else if 109 ≤ c ∧ c ≤ 122 then some (44 + (c - 109))
  else none

/-- Little-endian digits of `n` in base `base`, with an explicit fuel list
bounding the number of digits (so that the definition is structural and
kernel-evaluable); callers always supply enough fuel. -/
def natToDigitsLE (base : Nat) : List Nat → Nat → List Nat
  | _, 0 => []
  | [], _ => []
  | _ :: fs, n => n % base :: natToDigitsLE base fs (n / base)

/-- Big-endian base-256 digits of `n` (fuel as in `natToDigitsLE`). -/
def natToBytesBE (fuel : List Nat) (n : Nat) : Bytes :=
  (natToDigitsLE 256 fuel n).reverse

/-- Big-endian byte-string value as a natural number. -/
def bytesToNat (l : Bytes) : Nat := l.foldl (fun a b => a * 256 + b) 0

/-- mr-tron/base58 encoding: one output digit of value 0 per leading zero
byte, then the big-endian base58 digits of the value. -/
def b58Encode (l : Bytes) : Bytes :=
  List.replicate (l.takeWhile (· = 0)).length 49 ++
    ((natToDigitsLE 58 (l ++ l) (bytesToNat l)).reverse.map b58Char)

/-- mr-tron/base58 decoding: fails on a character outside the alphabet;
one leading zero byte per leading alphabet-zero digit, then the big-endian
base-256 bytes of the value. -/
def b58Decode (s : Bytes) : Option Bytes := do
  let vals ← s.mapM b58Val
  pure (List.replicate (s.takeWhile (· = 49)).length 0 ++
    natToBytesBE s (vals.foldl (fun a d => a * 58 + d) 0))

/-! ## base16 (go-multibase Base16, prefix f), used when printing a record's
embedded public key -/

/-- Lower-case hex character of a value below 16. -/
def hexChar (v : Nat) : Nat := if v < 10 then 48 + v else 97 + (v - 10)

/-- Lower-case hex encoding of a byte string. -/
def hexEncode (l : Bytes) : Bytes :=
  l.flatMap (fun b => [hexChar (b / 16), hexChar (b % 16)])

/-- multibase.Encode(multibase.Base16, data): prefix f, then hex. -/
def multibaseEncode16 (l : Bytes) : Bytes := 102 :: hexEncode l

/-! ## SHA-256 (the hash the program reaches through go-multihash) -/

/-- Right rotation of a 32-bit word. -/
def rotr32 (x n : Nat) : Nat := x / 2 ^ n + x % 2 ^ n * 2 ^ (32 - n)

/-- The 64 SHA-256 round constants. -/
def shaK : List Nat :=
  [0x428a2f98, 0x71374491, 0xb5c0fbcf, 0xe9b5dba5, 0x3956c25b, 0x59f111f1,
   0x923f82a4, 0xab1c5ed5] ++
  [0xd807aa98, 0x12835b01, 0x243185be, 0x550c7dc3, 0x72be5d74, 0x80deb1fe,
   0x9bdc06a7, 0xc19bf174] ++
  [0xe49b69c1, 0xefbe4786, 0x0fc19dc6, 0x240ca1cc, 0x2de92c6f, 0x4a7484aa,
   0x5cb0a9dc, 0x76f988da] ++
  [0x983e5152, 0xa831c66d, 0xb00327c8, 0xbf597fc7, 0xc6e00bf3, 0xd5a79147,
   0x06ca6351, 0x14292967] ++
  [0x27b70a85, 0x2e1b2138, 0x4d2c6dfc, 0x53380d13, 0x650a7354, 0x766a0abb,
   0x81c2c92e, 0x92722c85] ++
  [0xa2bfe8a1, 0xa81a664b, 0xc24b8b70, 0xc76c51a3, 0xd192e819, 0xd6990624,
   0xf40e3585, 0x106aa070] ++
  [0x19a4c116, 0x1e376c08, 0x2748774c, 0x34b0bcb5, 0x391c0cb3, 0x4ed8aa4a,
   0x5b9cca4f, 0x682e6ff3] ++
  [0x748f82ee, 0x78a5636f, 0x84c87814, 0x8cc70208, 0x90befffa, 0xa4506ceb,
   0xbef9a3f7, 0xc67178f2]

/-- The SHA-256 initial hash state. -/
def shaH0 : List Nat :=
  [0x6a09e667, 0xbb67ae85, 0x3c6ef372, 0xa54ff53a,
   0x510e527f, 0x9b05688c, 0x1f83d9ab, 0x5be0cd19]

/-- Big-endian 4-byte encoding of a 32-bit word. -/
def be32 (n : Nat) : Bytes :=
  [n / 2 ^ 24 % 256, n / 2 ^ 16 % 256, n / 2 ^ 8 % 256, n % 256]

/-- Big-endian 8-byte encoding of a 64-bit word. -/
def be64 (n : Nat) : Bytes :=
  [n / 2 ^ 56 % 256, n / 2 ^ 48 % 256, n / 2 ^ 40 % 256, n / 2 ^ 32 % 256,
   n / 2 ^ 24 % 256, n / 2 ^ 16 % 256, n / 2 ^ 8 % 256, n % 256]

/-- SHA-256 padding: 0x80, zeros to 56 mod 64, 8-byte bit length. -/
def shaPad (msg : Bytes) : Bytes :=
  msg ++ 0x80 :: List.replicate ((119 - msg.length % 64) % 64) 0 ++
    be64 (8 * msg.length % 2 ^ 64)

/-- 4-byte groups of a block as big-endian 32-bit words. -/
def toWords : Bytes → List Nat
  | a :: b :: c :: d :: rest => (a * 2 ^ 24 + b * 2 ^ 16 + c * 2 ^ 8 + d) :: toWords rest
  | _ => []

def smallSigma0 (x : Nat) : Nat := rotr32 x 7 ^^^ rotr32 x 18 ^^^ x / 2 ^ 3

def smallSigma1 (x : Nat) : Nat := rotr32 x 17 ^^^ rotr32 x 19 ^^^ x / 2 ^ 10

def bigSigma0 (x : Nat) : Nat := rotr32 x 2 ^^^ rotr32 x 13 ^^^ rotr32 x 22

def bigSigma1 (x : Nat) : Nat := rotr32 x 6 ^^^ rotr32 x 11 ^^^ rotr32 x 25

def chWord (x y z : Nat) : Nat := x &&& y ^^^ (x ^^^ (2 ^ 32 - 1)) &&& z

def majWord (x y z : Nat) : Nat := x &&& y ^^^ x &&& z ^^^ y &&& z

/-- Extend the 16 block words to the 64-word message schedule. -/
def extendW : Nat → List Nat → List Nat
  | 0, w => w
  | fuel + 1, w =>
    extendW fuel (w ++ [(smallSigma1 (w.getD (w.length - 2) 0) +
      w.getD (w.length - 7) 0 + smallSigma0 (w.getD (w.length - 15) 0) +
      w.getD (w.length - 16) 0) % 2 ^ 32])

/-- One SHA-256 round on the 8-word working state. -/
def shaRound : List Nat → Nat × Nat → List Nat
  | [a, b, c, d, e, f, g, h], (k, w) =>
    let t1 := (h + bigSigma1 e + chWord e f g + k + w) % 2 ^ 32
    let t2 := (bigSigma0 a + majWord a b c) % 2 ^ 32
    [(t1 + t2) % 2 ^ 32, a, b, c, (d + t1) % 2 ^ 32, e, f, g]
  | st, _ => st

/-- Compress one 64-byte block into the hash state. -/
def shaBlock (h : List Nat) (block : Bytes) : List Nat :=
  let w := extendW 48 (toWords block)
  let fin := (shaK.zip w).foldl shaRound h
  (h.zip fin).map (fun p => (p.1 + p.2) % 2 ^ 32)

/-- 64-byte chunks of a padded message (fuel bounds the recursion so the
definition is structural; callers pass the message length as fuel). -/
def toBlocks : Nat → Bytes → List Bytes
  | 0, _ => []
  | _, [] => []
  | fuel + 1, l => l.take 64 :: toBlocks fuel (l.drop 64)

/-- SHA-256 of a byte string. -/
def sha256 (msg : Bytes) : Bytes :=
  let padded := shaPad msg
  ((toBlocks padded.length padded).foldl shaBlock shaH0).flatMap be32

/-! ## Multihash (go-multihash v0.0.13) -/

inductive MhErr where
  | tooShort
  | varintFail
  | tooLong
  | inconsistentLen
  | unknownCode
  | invalidB58
  | unsupportedSum
deriving DecidableEq, Repr

/-- mh.ValidCode: application codes below 0x10 are accepted, as is every
code in the library's table (the stable core of the table is listed; the
codes this program produces are 0x00 identity and 0x12 sha2-256). -/
def mhValidCode (c : Nat) : Bool :=
  c < 0x10 ||
  [0x11, 0x12, 0x13, 0x14, 0x15, 0x16, 0x17, 0x18, 0x19,
   0x1A, 0x1B, 0x1C, 0x1D, 0x22, 0x56, 0xd5].contains c ||
  (0xb201 ≤ c && c ≤ 0xb260)

/-- mh.Decode: varint code, varint digest length, digest; the digest length
must match the remaining bytes exactly. -/
def mhDecode (buf : Bytes) : Except MhErr (Nat × Bytes) :=
  if buf.length < 2 then .error .tooShort
  else
    match readUvarint buf with
    | none => .error .varintFail
    | some (code, rest) =>
      match readUvarint rest with
      | none => .error .varintFail
      | some (length, digest) =>
        if 2 ^ 31 - 1 < length then .error .tooLong
        else if digest.length ≠ length then .error .inconsistentLen
        else .ok (code, digest)

/-- mh.Cast: decode and validate, returning the byte string unchanged. -/
def mhCast (buf : Bytes) : Except MhErr Bytes :=
  match mhDecode buf with
  | .error e => .error e
  | .ok (code, _) => if mhValidCode code then .ok buf else .error .unknownCode

/-- mh.Sum with default length, modelled at the two instances the program
uses: identity (0x00, digest is the data itself) and sha2-256 (0x12); every
other code is the library's unsupported-function error path. -/
def mhSum (code : Nat) (data : Bytes) : Except MhErr Bytes :=
  if code = 0x12 then .ok (0x12 :: 0x20 :: sha256 data)
  else if code = 0 then .ok (0x00 :: (putUvarint data.length ++ data))
  else .error .unsupportedSum

/-! ## CID (go-cid v0.0.5); a Cid value is its raw byte string, as in go -/

inductive CidErr where
  | tooShort
  | mh (e : MhErr)
  | unsupportedBase
  | mbaseCorrupt
  | badVarint
  | badVersion (v : Nat)
deriving DecidableEq, Repr

/-- The 34-byte sha2-256 form that go-cid treats as a CIDv0 byte string. -/
def cidIsV0Form (c : Bytes) : Bool :=
  c.length = 34 && c.getD 0 0 = 18 && c.getD 1 0 = 32

/-- cid.Cast: the v0 byte form is validated as a bare multihash; otherwise
a version varint (which must be 1), a codec varint and a multihash. -/
def cidCast (data : Bytes) : Except CidErr Bytes :=
  if cidIsV0Form data then
    match mhCast data with
    | .error e => .error (.mh e)
    | .ok h => .ok h
  else
    match readUvarint data with
    | none => .error .badVarint
    | some (vers, rest) =>
      if vers ≠ 1 then .error (.badVersion vers)
      else
        match readUvarint rest with
        | none => .error .badVarint
        | some (_, rest2) =>
          match mhCast rest2 with
          | .error e => .error (.mh e)
          | .ok _ => .ok data

/-- mbase.Decode, restricted to the two prefixes this program's identifier
formats produce: b (base32 lower, no padding) and z (base58btc).  Other
multibase prefixes do not occur in this development and are mapped to the
unsupported-encoding error. -/
def multibaseDecode (s : Bytes) : Except CidErr Bytes :=
  match s with
  | 98 :: rest =>
    match b32Decode rest with
    | some d => .ok d
    | none => .error .mbaseCorrupt
  | 122 :: rest =>
    match b58Decode rest with
    | some d => .ok d
    | none => .error .mbaseCorrupt
  | _ => .error .unsupportedBase

/-- cid.Decode: 46-character Qm strings are base58 CIDv0 (via
mh.FromB58String, whose base58 failure is ErrInvalidMultihash); everything
else is multibase-decoded and cast. -/
def cidDecode (s : Bytes) : Except CidErr Bytes :=
  if s.length < 2 then .error .tooShort
  else if s.length = 46 ∧ s.take 2 = bytesOfAscii "Qm" then
    match b58Decode s with
    | none => .error (.mh .invalidB58)
    | some b =>
      match mhCast b with
      | .error e => .error (.mh e)
      | .ok h => .ok h
  else
    match multibaseDecode s with
    | .error e => .error e
    | .ok data => cidCast data

/-- Cid.Version: the 34-byte sha2-256 form is version 0, all else 1. -/
def cidVersion (c : Bytes) : Nat := if cidIsV0Form c then 0 else 1

/-- Cid.Hash: the whole byte string for v0; for v1 skip the version and
codec varints (for cast byte strings both varints are present; the fallback
branches are unreachable there). -/
def cidHash (c : Bytes) : Bytes :=
  if cidIsV0Form c then c
  else
    match readUvarint c with
    | none => []
    | some (_, r) =>
      match readUvarint r with
      | none => []
      | some (_, r2) => r2

/-- Cid.String: base58btc of the multihash for v0; multibase base32 (prefix
b) of the byte string for v1. -/
def cidString (c : Bytes) : Bytes :=
  if cidIsV0Form c then b58Encode (cidHash c) else 98 :: b32Encode c

/-- cid.NewCidV1: version varint, codec varint, multihash bytes. -/
def newCidV1 (codec : Nat) (hash : Bytes) : Bytes :=
  putUvarint 1 ++ putUvarint codec ++ hash

/-! ## PubSub topic and DHT rendezvous translation (src/main.go) -/

/-- psr.KeyToTopic (go-libp2p-pubsub-router): prefix /record/ then the
raw-URL base64 encoding of the key bytes. -/
def keyToTopic (key : Bytes) : Bytes := bytesOfAscii "/record/" ++ b64Encode key

inductive TopicErr where
  | cid (e : CidErr)
  | unsupportedCIDVersion (v : Nat)
deriving DecidableEq, Repr

/-- getPubSubTopic (src/main.go): decode the key as a CID; for v0 the topic
key is /ipns/ plus the raw CID bytes (KeyString), for v1 it is /ipns/ plus
the multihash bytes; the default branch is unreachable since Version is
always 0 or 1. -/
def getPubSubTopic (ipnsKey : Bytes) : Except TopicErr Bytes :=
  match cidDecode ipnsKey with
  | .error e => .error (.cid e)
  | .ok c =>
    if cidVersion c = 0 then .ok (keyToTopic (bytesOfAscii "/ipns/" ++ c))
    else if cidVersion c = 1 then .ok (keyToTopic (bytesOfAscii "/ipns/" ++ cidHash c))
    else .error (.unsupportedCIDVersion (cidVersion c))

inductive KeyErr where
  | panicSliceRecord
  | base64Corrupt
  | panicSliceIpns
  | cid (e : CidErr)
  | unsupportedCIDVersion (v : Int)
deriving DecidableEq, Repr

/-- getIPNSKey (src/main.go): drops the first 8 bytes of the topic without
checking them (a shorter input makes go panic slicing topic[8:]), base64
raw-URL decodes the remainder, drops the first 6 decoded bytes without
checking them (again panicking when fewer are present), casts the rest as a
CID and prints it at the requested version; versions other than 0 and 1 are
rejected after all of that. -/
def getIPNSKey (topic : Bytes) (cidVersionFlag : Int) : Except KeyErr Bytes :=
  if topic.length < 8 then .error .panicSliceRecord
  else
    match b64Decode (topic.drop 8) with
    | none => .error .base64Corrupt
    | some decoded =>
      if decoded.length < 6 then .error .panicSliceIpns
      else
        match cidCast (decoded.drop 6) with
        | .error e => .error (.cid e)
        | .ok c =>
          if cidVersionFlag = 0 then .ok (cidString c)
          else if cidVersionFlag = 1 then .ok (cidString (newCidV1 0x72 (cidHash c)))
          else .error (.unsupportedCIDVersion cidVersionFlag)

inductive DhtErr where
  | mh (e : MhErr)
deriving DecidableEq, Repr

/-- getDHTRendezvousKey (src/main.go): multihash.Sum with sha2-256 over
floodsub: plus the topic, wrapped as a raw-codec CIDv1 and printed. -/
def getDHTRendezvousKey (topic : Bytes) : Except DhtErr Bytes :=
  match mhSum 0x12 (bytesOfAscii "floodsub:" ++ topic) with
  | .error e => .error (.mh e)
  | .ok keybytes => .ok (cidString (newCidV1 0x55 keybytes))

/-- The DHT rendezvous key as the spec describes it: the CID-v1 with the
raw codec whose digest is sha2-256 of the string floodsub: concatenated
with the topic, displayed in the default multibase (base32, prefix b). -/
def specDHTRendezvousKey (topic : Bytes) : Bytes :=
  98 :: b32Encode (putUvarint 1 ++ putUvarint 0x55 ++
    (0x12 :: 0x20 :: sha256 (bytesOfAscii "floodsub:" ++ topic)))

/-- Round trip of src/main.go: key to topic, then topic back to key at the
requested output version. -/
def roundTripTopicKey (k : Bytes) (v : Int) : Except (TopicErr ⊕ KeyErr) Bytes :=
  match getPubSubTopic k with
  | .error e => .error (.inl e)
  | .ok t =>
    match getIPNSKey t v with
    | .error e => .error (.inr e)
    | .ok s => .ok s

/-! ## Go time values (UTC, broken down), RFC3339Nano format and parse

go-ipfs-util FormatRFC3339 is t.UTC().Format(time.RFC3339Nano) and
ParseRFC3339 is time.Parse(time.RFC3339Nano, s) followed by .UTC().  The
times this program creates and parses are UTC values with the Z zone
designator, which is what is modelled; go's parser additionally accepts
numeric zone offsets (converted to UTC) and further fractional digits,
forms that never occur in this development. -/

structure GoTime where
  year : Nat
  month : Nat
  day : Nat
  hour : Nat
  minute : Nat
  second : Nat
  nanos : Nat
deriving DecidableEq, Repr

def isLeapYear (y : Nat) : Bool := y % 4 = 0 && (y % 100 ≠ 0 || y % 400 = 0)

def daysInMonth (y m : Nat) : Nat :=
  if m = 2 then (if isLeapYear y then 29 else 28)
  else if m = 4 ∨ m = 6 ∨ m = 9 ∨ m = 11 then 30
  else 31

/-- The time is a calendar-valid UTC instant with a four-digit year. -/
def ValidGoTime (t : GoTime) : Prop :=
  t.year ≤ 9999 ∧ 1 ≤ t.month ∧ t.month ≤ 12 ∧ 1 ≤ t.day ∧
  t.day ≤ daysInMonth t.year t.month ∧ t.hour ≤ 23 ∧ t.minute ≤ 59 ∧
  t.second ≤ 59 ∧ t.nanos < 10 ^ 9

instance (t : GoTime) : Decidable (ValidGoTime t) := by
  unfold ValidGoTime; infer_instance

/-- Zero-padded fixed-width ASCII decimal digits, most significant first. -/
def padDigits : Nat → Nat → Bytes
  | 0, _ => []
  | k + 1, n => padDigits k (n / 10) ++ [48 + n % 10]

/-- Value of a list of ASCII decimal digits. -/
def digitsVal (l : Bytes) : Nat := l.foldl (fun a c => a * 10 + (c - 48)) 0

def isDigitB (c : Nat) : Bool := 48 ≤ c && c ≤ 57

/-- Drop trailing zero digits (RFC3339Nano trims them). -/
def trimZeroDigits (l : Bytes) : Bytes := (l.reverse.dropWhile (· = 48)).reverse

/-- The fractional-second part of RFC3339Nano: empty for zero nanoseconds,
otherwise a dot and the nanosecond digits with trailing zeros removed. -/
def fmtFrac (ns : Nat) : Bytes :=
  if ns = 0 then [] else 46 :: trimZeroDigits (padDigits 9 ns)

/-- t.UTC().Format(time.RFC3339Nano). -/
def formatRFC3339 (t : GoTime) : Bytes :=
  padDigits 4 t.year ++ 45 :: padDigits 2 t.month ++ 45 :: padDigits 2 t.day ++
  84 :: padDigits 2 t.hour ++ 58 :: padDigits 2 t.minute ++
  58 :: padDigits 2 t.second ++ fmtFrac t.nanos ++ [90]

inductive TimeErr where
  | parseFail
  | unrecognizedValidity
deriving DecidableEq, Repr

/-- Consume one expected byte (a literal separator of the layout). -/
def expectByte (b : Nat) : Bytes → Option Bytes
  | c :: r => if c = b then some r else none
  | [] => none

/-- Consume a fixed-width decimal number, as go's layout parsing does for
the fixed-width elements of RFC3339. -/
def readNDigits (n : Nat) (s : Bytes) : Option (Nat × Bytes) :=
  if (s.take n).length = n ∧ (s.take n).all isDigitB then
    some (digitsVal (s.take n), s.drop n)
  else none

/-- The tail after the seconds: either the Z designator directly, or a dot,
one to nine fractional digits and the Z designator; yields nanoseconds. -/
def parseFracOrZ : Bytes → Option Nat
  | [90] => some 0
  | 46 :: fr =>
    let ds := fr.takeWhile isDigitB
    if fr.drop ds.length = [90] ∧ 1 ≤ ds.length ∧ ds.length ≤ 9 then
      some (digitsVal ds * 10 ^ (9 - ds.length))
    else none
  | _ => none

/-- Layout match of the RFC3339Nano Z form, with go's range validation of
the date and clock fields. -/
def parseRFC3339Core (s : Bytes) : Option GoTime := do
  let (year, s) ← readNDigits 4 s
  let s ← expectByte 45 s
  let (month, s) ← readNDigits 2 s
  let s ← expectByte 45 s
  let (day, s) ← readNDigits 2 s
  let s ← expectByte 84 s
  let (hour, s) ← readNDigits 2 s
  let s ← expectByte 58 s
  let (minute, s) ← readNDigits 2 s
  let s ← expectByte 58 s
  let (second, s) ← readNDigits 2 s
  let ns ← parseFracOrZ s
  if 1 ≤ month ∧ month ≤ 12 ∧ 1 ≤ day ∧ day ≤ daysInMonth year month ∧
      hour ≤ 23 ∧ minute ≤ 59 ∧ second ≤ 59 then
    some ⟨year, month, day, hour, minute, second, ns⟩
  else none

/-- time.Parse(time.RFC3339Nano, s).UTC() on the Z-suffixed forms. -/
def parseRFC3339 (s : Bytes) : Except TimeErr GoTime :=
  match parseRFC3339Core s with
  | some t => .ok t
  | none => .error .parseFail

/-! ## The protobuf wire codec of pb.IpnsEntry (gogo-generated, go-ipns)

The schema (go-ipns pb/ipns.proto, proto2): required bytes value = 1;
required bytes signature = 2; optional ValidityType validityType = 3
(enum, EOL = 0); optional bytes validity = 4; optional uint64 sequence = 5;
optional uint64 ttl = 6; optional bytes pubKey = 7. -/

structure IpnsEntry where
  value : Option Bytes
  signature : Option Bytes
  validityType : Option Nat
  validity : Option Bytes
  sequence : Option Nat
  ttl : Option Nat
  pubKey : Option Bytes
deriving DecidableEq, Repr

def IpnsEntry.empty : IpnsEntry := ⟨none, none, none, none, none, none, none⟩

/-- A length-delimited field: tag byte, varint length, payload. -/
def encBytesField (tag : Nat) (b : Bytes) : Bytes :=
  (tag * 8 + 2) :: (putUvarint b.length ++ b)

/-- A varint field: tag byte, varint value. -/
def encVarintField (tag : Nat) (v : Nat) : Bytes := tag * 8 :: putUvarint v

def optField {α : Type} : Option α → (α → Bytes) → Bytes
  | none, _ => []
  | some x, f => f x

/-- The gogo-generated Marshal: fields in ascending tag order; the two
required fields are written unconditionally (a nil slice as empty bytes),
optional fields only when set. -/
def encodeIpnsEntry (e : IpnsEntry) : Bytes :=
  encBytesField 1 (e.value.getD []) ++ encBytesField 2 (e.signature.getD []) ++
  optField e.validityType (encVarintField 3) ++
  optField e.validity (encBytesField 4) ++
  optField e.sequence (encVarintField 5) ++
  optField e.ttl (encVarintField 6) ++
  optField e.pubKey (encBytesField 7)

inductive PbErr where
  | eof
  | overflow
  | invalidLength
  | wrongWireType
  | illegalTag
  | endGroup
  | fuelOut
  | requiredValue
  | requiredSignature
deriving DecidableEq, Repr

/-- The varint reader inlined by the gogo-generated Unmarshal: overflow once
the shift reaches 64, unexpected EOF on exhausted input, accumulation into
a uint64. -/
def pbReadUvarintLoop : Bytes → Nat → Nat → Except PbErr (Nat × Bytes)
  | l, shift, acc =>
    if 64 ≤ shift then .error .overflow
    else
      match l with
      | [] => .error .eof
      | b :: rest =>
        if b < 0x80 then .ok ((acc + b * 2 ^ shift) % 2 ^ 64, rest)
        else pbReadUvarintLoop rest (shift + 7) (acc + b % 0x80 * 2 ^ shift)

def pbReadUvarint (l : Bytes) : Except PbErr (Nat × Bytes) := pbReadUvarintLoop l 0 0

/-- A length-delimited payload: varint length, then that many bytes; EOF
when fewer remain. -/
def pbReadBytes (l : Bytes) : Except PbErr (Bytes × Bytes) :=
  match pbReadUvarint l with
  | .error e => .error e
  | .ok (len, r) =>
    if r.length < len then .error .eof else .ok (r.take len, r.drop len)

/-- The gogo-generated skip of an unknown field (tag included in the input):
returns the number of bytes consumed; group wire types track depth.  Fuel is
one unit per tag processed; callers pass the data length, which suffices. -/
def pbSkip : Nat → Bytes → Nat → Except PbErr Nat
  | 0, _, _ => .error .fuelOut
  | fuel + 1, data, depth =>
    match pbReadUvarint data with
    | .error e => .error e
    | .ok (wire, rest) =>
      let tagLen := data.length - rest.length
      match wire % 8 with
      | 0 =>
        match pbReadUvarint rest with
        | .error e => .error e
        | .ok (_, r2) =>
          let c := data.length - r2.length
          if depth = 0 then .ok c
          else (pbSkip fuel (data.drop c) depth).map (c + ·)
      | 1 =>
        let c := tagLen + 8
        if depth = 0 then .ok c
        else if data.length ≤ c then .error .eof
        else (pbSkip fuel (data.drop c) depth).map (c + ·)
      | 2 =>
        match pbReadUvarint rest with
        | .error e => .error e
        | .ok (len, r2) =>
          let c := data.length - r2.length + len
          if depth = 0 then .ok c
          else if data.length ≤ c then .error .eof
          else (pbSkip fuel (data.drop c) depth).map (c + ·)
      | 3 => (pbSkip fuel rest (depth + 1)).map (tagLen + ·)
      | 4 =>
        if depth = 0 then .error .endGroup
        else if depth = 1 then .ok tagLen
        else (pbSkip fuel rest (depth - 1)).map (tagLen + ·)
      | 5 =>
        let c := tagLen + 4
        if depth = 0 then .ok c
        else if data.length ≤ c then .error .eof
        else (pbSkip fuel (data.drop c) depth).map (c + ·)
      | _ => .error .wrongWireType

/-- One iteration of the gogo-generated Unmarshal loop body: read the tag,
dispatch on the field number with its expected wire type, skip unknown
fields; yields the updated entry and the remaining input.  Repeated
occurrences overwrite.  The enum field 3 is stored as an int32, so its
varint is truncated to 32 bits. -/
def pbStepField (data : Bytes) (e : IpnsEntry) : Except PbErr (IpnsEntry × Bytes) :=
  match pbReadUvarint data with
  | .error err => .error err
  | .ok (wire, rest) =>
    let fieldNum := wire / 8
    let wireType := wire % 8
    if wireType = 4 then .error .endGroup
    else if fieldNum = 0 then .error .illegalTag
    else if fieldNum = 1 then
      if wireType ≠ 2 then .error .wrongWireType
      else
        match pbReadBytes rest with
        | .error err => .error err
        | .ok (b, r2) => .ok ({ e with value := some b }, r2)
    else if fieldNum = 2 then
      if wireType ≠ 2 then .error .wrongWireType
      else
        match pbReadBytes rest with
        | .error err => .error err
        | .ok (b, r2) => .ok ({ e with signature := some b }, r2)
    else if fieldNum = 3 then
      if wireType ≠ 0 then .error .wrongWireType
      else
        match pbReadUvarint rest with
        | .error err => .error err
        | .ok (v, r2) => .ok ({ e with validityType := some (v % 2 ^ 32) }, r2)
    else if fieldNum = 4 then
      if wireType ≠ 2 then .error .wrongWireType
      else
        match pbReadBytes rest with
        | .error err => .error err
        | .ok (b, r2) => .ok ({ e with validity := some b }, r2)
    else if fieldNum = 5 then
      if wireType ≠ 0 then .error .wrongWireType
      else
        match pbReadUvarint rest with
        | .error err => .error err
        | .ok (v, r2) => .ok ({ e with sequence := some v }, r2)
    else if fieldNum = 6 then
      if wireType ≠ 0 then .error .wrongWireType
      else
        match pbReadUvarint rest with
        | .error err => .error err
        | .ok (v, r2) => .ok ({ e with ttl := some v }, r2)
    else if fieldNum = 7 then
      if wireType ≠ 2 then .error .wrongWireType
      else
        match pbReadBytes rest with
        | .error err => .error err
        | .ok (b, r2) => .ok ({ e with pubKey := some b }, r2)
    else
      match pbSkip (data.length + 1) data 0 with
      | .error err => .error err
      | .ok skippy =>
        if data.length < skippy then .error .eof
        else .ok (e, data.drop skippy)

/-- The gogo-generated Unmarshal loop, one step per fuel unit: succeeds
once the input is exhausted; unset optional fields keep their defaults. -/
def pbDecodeLoop : Nat → Bytes → IpnsEntry → Except PbErr IpnsEntry
  | _, [], e => .ok e
  | 0, _ :: _, _ => .error .fuelOut
  | fuel + 1, b :: rest, e =>
    match pbStepField (b :: rest) e with
    | .error err => .error err
    | .ok (e2, r2) => pbDecodeLoop fuel r2 e2

/-- rec.Unmarshal: run the field loop, then enforce the two proto2 required
fields (value first, then signature), as the generated code does with its
hasFields bitmask. -/
def pbUnmarshal (data : Bytes) : Except PbErr IpnsEntry :=
  match pbDecodeLoop (data.length + 1) data IpnsEntry.empty with
  | .error e => .error e
  | .ok e =>
    if e.value.isNone then .error .requiredValue
    else if e.signature.isNone then .error .requiredSignature
    else .ok e

/-! ## go integer conversions -/

/-- The go conversion uint64(n) of an int64: two's complement, i.e. the
value modulo 2 ^ 64. -/
def goUint64OfInt (n : Int) : Nat := (n % 2 ^ 64).toNat

/-- The go conversion int64(n) of a uint64 below 2 ^ 64 (used when a record
ttl is displayed as a time.Duration). -/
def goInt64OfNat (n : Nat) : Int :=
  if n < 2 ^ 63 then (n : Int) else (n : Int) - 2 ^ 64

/-! ## go-ipns record operations and the peer-identifier rules they use -/

/-- Decimal ASCII digits of a positive number (enum String falls back to
the decimal value for an unknown enum member; the program only ever stores
the EOL member, value 0). -/
def natDecimalAscii (n : Nat) : Bytes :=
  (natToDigitsLE 10 (List.replicate 32 0) n).reverse.map (48 + ·)

/-- The printed name of a ValidityType value: EOL for 0, the decimal value
otherwise (as fmt.Sprint of the gogo enum). -/
def validityTypeString (v : Nat) : Bytes :=
  if v = 0 then bytesOfAscii "EOL" else natDecimalAscii v

/-- ipnsEntryDataForSig (go-ipns): the signed material is the concatenation
of value, validity and the printed validity type. -/
def ipnsEntryDataForSig (e : IpnsEntry) : Bytes :=
  e.value.getD [] ++ e.validity.getD [] ++ validityTypeString (e.validityType.getD 0)

/-- Modelled from the spec: ipns.Create as called by src/main.go with five
arguments (value, sequence, eol, ttl); the go.mod of the repository pins
go-ipns v0.0.2, whose Create lacks the ttl parameter, so the exact library
revision is not recoverable from the sources.  Following the spec's create
contract and the go-ipns V1 record layout: value, validityType EOL,
validity the RFC3339 form of eol, the sequence number, ttl in nanoseconds
when non-zero, and a signature by the private key over the canonical
concatenation of value, validity and validity type.  The signing primitive
of the key provider is an external collaborator and is a parameter. -/
def ipnsCreate (sign : Bytes → Bytes) (val : Bytes) (seq : Nat) (eol : GoTime)
    (ttlDur : Int) : IpnsEntry :=
  let base : IpnsEntry :=
    { value := some val
      signature := none
      validityType := some 0
      validity := some (formatRFC3339 eol)
      sequence := some seq
      ttl := if ttlDur = 0 then none else some (goUint64OfInt ttlDur)
      pubKey := none }
  { base with signature := some (sign (ipnsEntryDataForSig base)) }

/-- peer.IDFromPublicKey applied to the marshalled public key bytes: the
identity multihash when the serialized key is at most 42 bytes
(maxInlineKeyLength), the sha2-256 multihash otherwise.  go ignores the
mh.Sum error, which cannot occur for these two codes. -/
def idFromPublicKey (pubBytes : Bytes) : Bytes :=
  let alg := if pubBytes.length ≤ 42 then 0 else 0x12
  match mhSum alg pubBytes with
  | .ok h => h
  | .error _ => []

/-- crypto.UnmarshalPublicKey on the wire form (proto: required enum Type =
1, required bytes Data = 2, in that order as the library marshals them).
Modelled from the spec: the key provider's load operation is an external
collaborator; key types 0..3 are accepted and the ed25519 material length
is checked, deeper per-type material validation is the provider's. -/
def unmarshalPublicKey (data : Bytes) : Option (Nat × Bytes) :=
  match data with
  | 0x08 :: rest =>
    match readUvarint rest with
    | some (kt, 0x12 :: r2) =>
      match readUvarint r2 with
      | some (len, r3) =>
        if r3.length = len ∧ kt ≤ 3 ∧ (kt = 1 → len = 32) then some (kt, r3)
        else none
      | none => none
    | _ => none
  | _ => none

inductive EmbedErr where
  | extractFail
deriving DecidableEq, Repr

/-- ipns.EmbedPublicKey (go-ipns v0.0.2): compute the peer identifier of
the public key and try to extract the key back from it
(peer.ID.ExtractPublicKey); when extraction says ErrNoPublicKey (a
non-identity multihash) the marshalled key is embedded in the record, when
extraction succeeds the record is left unchanged, and any other extraction
error aborts. -/
def embedPublicKey (pub : Bytes) (e : IpnsEntry) : Except EmbedErr IpnsEntry :=
  match mhDecode (idFromPublicKey pub) with
  | .error _ => .error .extractFail
  | .ok (code, digest) =>
    if code ≠ 0 then .ok { e with pubKey := some pub }
    else
      match unmarshalPublicKey digest with
      | some _ => .ok e
      | none => .error .extractFail

/-- createIPNSRecord (src/main.go): build the record with the sequence
number converted from int64 to uint64, embed the public key when needed,
and marshal.  The output-base display encoding is not part of the record
bytes and is not modelled. -/
def createIPNSRecord (sign : Bytes → Bytes) (pub : Bytes) (seqno : Int)
    (ttlDur : Int) (eol : GoTime) (value : Bytes) : Except EmbedErr Bytes :=
  match embedPublicKey pub (ipnsCreate sign value (goUint64OfInt seqno) eol ttlDur) with
  | .error e => .error e
  | .ok rec => .ok (encodeIpnsEntry rec)

/-- ipns.GetEOL: the validity type (default EOL when unset) must be EOL,
then the validity bytes are parsed as an RFC3339 time. -/
def getEOL (e : IpnsEntry) : Except TimeErr GoTime :=
  if e.validityType.getD 0 ≠ 0 then .error .unrecognizedValidity
  else parseRFC3339 (e.validity.getD [])

/-- The fields src/main.go prints for a parsed record: value, sequence
number, eol, ttl as a duration, and the multibase base16 form of the
embedded public key (empty when absent).  The signature is decoded but not
printed and never verified. -/
structure ParsedRecord where
  value : Bytes
  sequenceNumber : Nat
  eol : GoTime
  ttl : Int
  pubKeyStr : Bytes
deriving DecidableEq, Repr

inductive ParseErr where
  | unmarshal (e : PbErr)
  | eolErr (e : TimeErr)
  | nilSequenceDeref
deriving DecidableEq, Repr

/-- parseIPNSRecord (src/main.go): unmarshal, compute the eol via
ipns.GetEOL, default the ttl to zero when unset, hex-encode the embedded
key when present, and print.  The print statement dereferences
rec.Sequence without a nil check, so a record without a sequence field
makes the go program panic; that abort is the nilSequenceDeref error. -/
def parseIPNSRecord (data : Bytes) : Except ParseErr ParsedRecord :=
  match pbUnmarshal data with
  | .error e => .error (.unmarshal e)
  | .ok rec =>
    match getEOL rec with
    | .error e => .error (.eolErr e)
    | .ok eol =>
      let ttl : Int := goInt64OfNat (rec.ttl.getD 0)
      let pkStr : Bytes :=
        if 0 < (rec.pubKey.getD []).length then multibaseEncode16 (rec.pubKey.getD [])
        else []
      match rec.sequence with
      | some s => .ok ⟨rec.value.getD [], s, eol, ttl, pkStr⟩
      | none => .error .nilSequenceDeref

/-! ## Concrete inputs used by witnesses and counterexamples -/

/-- The v0 identifier of scenario A (README of the repository). -/
def scenarioKeyV0 : Bytes := bytesOfAscii "QmXMuMWm6k3CD3sHV824H2BT1ugcHKF6Tm13ZVM8RhGTB7"

/-- The pubsub topic of scenario A. -/
def scenarioTopic : Bytes :=
  bytesOfAscii "/record/L2lwbnMvEiCGC1J-0c8fai1qZlZ8I5fg8BYN36Tn6tPXsodDl3PTig"

/-- The v1 identifier of scenario A. -/
def scenarioKeyV1 : Bytes :=
  bytesOfAscii "bafzbeiegbnjh5uopd5vc22tgkz6chf7a6ala3x5e47vnhv5sq5bzo46tri"

/-- The sha2-256 digest inside scenario A's identifiers. -/
def scenarioDigest : Bytes :=
  [134, 11, 82, 126, 209, 207, 31, 106, 45, 106, 102, 86, 124, 35, 151, 224,
   240, 22, 13, 223, 164, 231, 234, 211, 215, 178, 135, 67, 151, 115, 211, 138]

/-- Scenario A's multihash, which is also its CIDv0 byte string. -/
def scenarioMh : Bytes := 0x12 :: 0x20 :: scenarioDigest

/-- Scenario A's CIDv1 byte string (libp2p-key codec). -/
def scenarioCidV1 : Bytes := 0x01 :: 0x72 :: scenarioMh

/-- A v1 libp2p-key identifier whose multihash is the identity hash of an
ed25519-shaped public key (the digest rule for keys of at most 42 bytes),
as the ids this very tool generates by default are. -/
def edIdCid : Bytes := [0x01, 0x72, 0x00, 0x24, 0x08, 0x01, 0x12, 0x20] ++ List.replicate 32 0

/-- The canonical base32 display form of `edIdCid`. -/
def edIdKey : Bytes :=
  bytesOfAscii "bafzaajaiaejcaaaaaaaaaaaaaaaaaaaaaaaaaaaaaaaaaaaaaaaaaaaaaaaaaaaa"

/-- Scenario A's topic with its 8-byte prefix replaced by 8 other bytes. -/
def badHeaderTopic : Bytes :=
  bytesOfAscii "AAAAAAAAL2lwbnMvEiCGC1J-0c8fai1qZlZ8I5fg8BYN36Tn6tPXsodDl3PTig"

/-- A topic whose remainder is not valid base64. -/
def badB64Topic : Bytes := bytesOfAscii "/record/?"

/-- A stand-in signing function for concrete record computations. -/
def demoSign : Bytes → Bytes := fun _ => [7, 7]

/-- A 36-byte marshalled ed25519-shaped public key (identity rule). -/
def demoPubInline : Bytes := [0x08, 0x01, 0x12, 0x20] ++ List.replicate 32 9

/-- A 52-byte marshalled public key (sha2-256 rule). -/
def demoPubHashed : Bytes := [0x08, 0x00, 0x12, 0x30] ++ List.replicate 48 5

/-- A concrete expiry time. -/
def demoEol : GoTime := ⟨2021, 3, 14, 15, 9, 26, 535000000⟩

/-- Wire bytes of a record with value, signature, validity and sequence but
no validityType field. -/
def recNoValidityType : Bytes :=
  encodeIpnsEntry { IpnsEntry.empty with
    value := some [97], signature := some [98],
    validity := some (bytesOfAscii "2021-01-02T03:04:05Z"), sequence := some 1 }

/-- Wire bytes of a record with every field but the sequence number. -/
def recNoSequence : Bytes :=
  encodeIpnsEntry { IpnsEntry.empty with
    value := some [97], signature := some [98], validityType := some 0,
    validity := some (bytesOfAscii "2021-01-02T03:04:05Z") }

/-- Wire bytes of a record whose required fields are all present and whose
validityType is EOL, but whose validity bytes are not a timestamp. -/
def recBadValidity : Bytes :=
  encodeIpnsEntry { IpnsEntry.empty with
    value := some [97], signature := some [98], validityType := some 0,
    validity := some [120], sequence := some 1 }

/-- Wire bytes of a record with garbage signature bytes, used to exhibit
that parsing never checks the signature. -/
def recGarbageSig : Bytes :=
  encodeIpnsEntry { IpnsEntry.empty with
    value := some [97], signature := some [1, 2, 3], validityType := some 0,
    validity := some (bytesOfAscii "2021-01-02T03:04:05Z"), sequence := some 1 }

/-- The record bytes created from the concrete demo inputs. -/
def demoRec : Bytes :=
  (createIPNSRecord demoSign demoPubInline 5 7 demoEol (bytesOfAscii "/ipfs/x")).toOption.getD []

/-- The record bytes created with a negative sequence-number input. -/
def demoRecNegSeq : Bytes :=
  (createIPNSRecord demoSign demoPubInline (-3) 7 demoEol (bytesOfAscii "v")).toOption.getD []

instance exceptDecEq {ε α : Type} [DecidableEq ε] [DecidableEq α] :
    DecidableEq (Except ε α)
  | .error x, .error y =>
    if h : x = y then isTrue (by rw [h]) else isFalse (by intro hh; cases hh; exact h rfl)
  | .error _, .ok _ => isFalse (fun h => Except.noConfusion h)
  | .ok _, .error _ => isFalse (fun h => Except.noConfusion h)
  | .ok x, .ok y =>
    if h : x = y then isTrue (by rw [h]) else isFalse (by intro hh; cases hh; exact h rfl)

/-! ## Varint lemmas -/

theorem putUvarintAux_congr : ∀ (f1 f2 n : Nat), n < f1 → n < f2 →
    putUvarintAux f1 n = putUvarintAux f2 n := by
  intro f1
  induction f1 with
  | zero => omega
  | succ f ih =>
    intro f2 n h1 h2
    cases f2 with
    | zero => omega
    | succ g =>
      rw [putUvarintAux, putUvarintAux]
      by_cases hn : n < 0x80
      · rw [if_pos hn, if_pos hn]
      · rw [if_neg hn, if_neg hn]
        have hlt : n / 0x80 < n := Nat.div_lt_self (by omega) (by omega)
        rw [ih g (n / 0x80) (by omega) (by omega)]

theorem putUvarint_eq (n : Nat) : putUvarint n =
    if n < 0x80 then [n] else (n % 0x80 + 0x80) :: putUvarint (n / 0x80) := by
  rw [putUvarint, putUvarintAux]
  by_cases hn : n < 0x80
  · rw [if_pos hn, if_pos hn]
  · rw [if_neg hn, if_neg hn, putUvarint]
    have hlt : n / 0x80 < n := Nat.div_lt_self (by omega) (by omega)
    rw [putUvarintAux_congr n (n / 0x80 + 1) (n / 0x80) (by omega) (by omega)]

theorem putUvarint_length_le : ∀ (k n : Nat), n < 2 ^ (7 * (k + 1)) →
    (putUvarint n).length ≤ k + 1 := by
  intro k
  induction k with
  | zero =>
    intro n hn
    rw [putUvarint_eq]
    split
    · simp
    · omega
  | succ k ih =>
    intro n hn
    rw [putUvarint_eq]
    split
    · simp
    · have hdiv : n / 128 < 2 ^ (7 * (k + 1)) := by
        have h2 : (2 : Nat) ^ (7 * (k + 1 + 1)) = 2 ^ (7 * (k + 1)) * 128 := by
          rw [show 7 * (k + 1 + 1) = 7 * (k + 1) + 7 by ring, pow_add]
          norm_num
        rw [Nat.div_lt_iff_lt_mul (by norm_num)]
        omega
      have := ih (n / 128) hdiv
      simpa using Nat.succ_le_succ this

theorem pbReadUvarintLoop_putUvarint (n : Nat) :
    ∀ (shift acc : Nat) (rest : Bytes),
    shift + 7 * ((putUvarint n).length - 1) ≤ 63 →
    pbReadUvarintLoop (putUvarint n ++ rest) shift acc =
      .ok ((acc + n * 2 ^ shift) % 2 ^ 64, rest) := by
  intro shift acc rest h
  rw [putUvarint_eq] at h ⊢
  by_cases hn : n < 0x80
  · rw [if_pos hn] at h ⊢
    rw [pbReadUvarintLoop.eq_def]
    simp only [List.cons_append, List.nil_append]
    rw [if_neg (by omega), if_pos hn]
  · rw [if_neg hn] at h ⊢
    have hlen : 1 ≤ (putUvarint (n / 128)).length := by
      rw [putUvarint_eq]; split <;> simp
    rw [pbReadUvarintLoop.eq_def]
    simp only [List.cons_append, List.length_cons] at h ⊢
    rw [if_neg (by omega), if_neg (by omega)]
    rw [pbReadUvarintLoop_putUvarint (n / 128) (shift + 7)
      (acc + (n % 0x80 + 0x80) % 0x80 * 2 ^ shift) rest (by omega)]
    congr 2
    have hm : (n % 0x80 + 0x80) % 0x80 = n % 0x80 := by omega
    rw [hm, pow_add]
    have : n % 0x80 * 2 ^ shift + n / 0x80 * (2 ^ shift * 2 ^ 7) = n * 2 ^ shift := by
      conv_rhs => rw [← Nat.mod_add_div n 0x80]
      ring
    omega
termination_by n
decreasing_by exact Nat.div_lt_self (by omega) (by omega)

theorem pbReadUvarint_putUvarint (n : Nat) (rest : Bytes) (h : n < 2 ^ 64) :
    pbReadUvarint (putUvarint n ++ rest) = .ok (n, rest) := by
  have hlen : (putUvarint n).length ≤ 10 :=
    putUvarint_length_le 9 n (by calc n < 2 ^ 64 := h
                                  _ ≤ 2 ^ (7 * 10) := by norm_num)
  rw [pbReadUvarint, pbReadUvarintLoop_putUvarint n 0 0 rest (by omega)]
  simp
  omega

theorem pbReadUvarint_single (b : Nat) (rest : Bytes) (h : b < 0x80) :
    pbReadUvarint (b :: rest) = .ok (b, rest) := by
  have h1 : putUvarint b = [b] := by rw [putUvarint_eq]; exact if_pos h
  have h2 := pbReadUvarint_putUvarint b rest (by omega)
  rw [h1] at h2
  simpa using h2

theorem readUvarint_single (b : Nat) (rest : Bytes) (h : b < 0x80) :
    readUvarint (b :: rest) = some (b, rest) := by
  rw [readUvarint, readUvarintLoop]
  rw [if_neg (by omega), if_pos h]
  congr 2
  simp
  omega

theorem pbReadBytes_enc (b rest : Bytes) (h : b.length < 2 ^ 64) :
    pbReadBytes (putUvarint b.length ++ (b ++ rest)) = .ok (b, rest) := by
  rw [pbReadBytes, pbReadUvarint_putUvarint _ _ h]
  simp only [List.length_append]
  rw [if_neg (by omega)]
  rw [List.take_left, List.drop_left]

/-! ## base64 raw-URL round trip -/

theorem b64Val_b64Char : ∀ v < 64, b64Val (b64Char v) = some v := by decide

theorem b64Encode_ne_nil (a : Nat) (l : Bytes) : b64Encode (a :: l) ≠ [] := by
  match l with
  | [] => simp [b64Encode]
  | [b] => simp [b64Encode]
  | b :: c :: rest => simp [b64Encode]

theorem b64_decode_encode : ∀ (l : Bytes), ByteOK l → b64Decode (b64Encode l) = some l
  | [], _ => by decide
  | [a], h => by
    have ha : a < 256 := h a (by simp)
    have h0 := b64Val_b64Char (a / 4) (by omega)
    have h1 := b64Val_b64Char (a % 4 * 16) (by omega)
    simp [b64Encode, b64Decode, h0, h1] <;> omega
  | [a, b], h => by
    have ha : a < 256 := h a (by simp)
    have hb : b < 256 := h b (by simp)
    have h0 := b64Val_b64Char (a / 4) (by omega)
    have h1 := b64Val_b64Char (a % 4 * 16 + b / 16) (by omega)
    have h2 := b64Val_b64Char (b % 16 * 4) (by omega)
    simp [b64Encode, b64Decode, h0, h1, h2] <;> omega
  | [a, b, c], h => by
    have ha : a < 256 := h a (by simp)
    have hb : b < 256 := h b (by simp)
    have hc : c < 256 := h c (by simp)
    have h0 := b64Val_b64Char (a / 4) (by omega)
    have h1 := b64Val_b64Char (a % 4 * 16 + b / 16) (by omega)
    have h2 := b64Val_b64Char (b % 16 * 4 + c / 64) (by omega)
    have h3 := b64Val_b64Char (c % 64) (by omega)
    simp [b64Encode, b64Decode, h0, h1, h2, h3] <;> omega
  | a :: b :: c :: d :: rest, h => by
    have ha : a < 256 := h a (by simp)
    have hb : b < 256 := h b (by simp)
    have hc : c < 256 := h c (by simp)
    have h0 := b64Val_b64Char (a / 4) (by omega)
    have h1 := b64Val_b64Char (a % 4 * 16 + b / 16) (by omega)
    have h2 := b64Val_b64Char (b % 16 * 4 + c / 64) (by omega)
    have h3 := b64Val_b64Char (c % 64) (by omega)
    have htail : b64Decode (b64Encode (d :: rest)) = some (d :: rest) :=
      b64_decode_encode (d :: rest) (fun x hx =>
        h x (List.mem_cons_of_mem _ (List.mem_cons_of_mem _ (List.mem_cons_of_mem _ hx))))
    cases hE : b64Encode (d :: rest) with
    | nil => exact absurd hE (b64Encode_ne_nil d rest)
    | cons e es =>
      rw [hE] at htail
      simp [b64Encode, b64Decode, h0, h1, h2, h3, hE, htail] <;> omega

/-! ## Topic and key translation: claims about getIPNSKey and friends -/

theorem recordHeader_drop (x : Bytes) : (bytesOfAscii "/record/" ++ x).drop 8 = x := rfl

theorem recordHeader_length : (bytesOfAscii "/record/").length = 8 := rfl

/-- C2 (amended): getIPNSKey never checks the /record/ prefix: an input
shorter than 8 bytes aborts with the go slice panic rather than a
MalformedTopic failure, and otherwise the result depends only on the input
after its first 8 bytes, so any other 8-byte prefix behaves exactly as
/record/ does (the decoded /ipns/ prefix is likewise stripped unchecked). -/
theorem getIPNSKey_no_header_check (t : Bytes) (v : Int) :
    (t.length < 8 → getIPNSKey t v = .error .panicSliceRecord) ∧
    (8 ≤ t.length → getIPNSKey t v = getIPNSKey (bytesOfAscii "/record/" ++ t.drop 8) v) := by
  constructor
  · intro h
    rw [getIPNSKey, if_pos h]
  · intro h
    have hlen : (bytesOfAscii "/record/" ++ t.drop 8).length = 8 + (t.drop 8).length := by
      rw [List.length_append, recordHeader_length]
    conv_lhs => rw [getIPNSKey]
    conv_rhs => rw [getIPNSKey]
    rw [if_neg (by omega), if_neg (by omega), recordHeader_drop]

/-- Witness for the amended C2 claim at concrete inputs. -/
theorem getIPNSKey_no_header_check_witness :
    getIPNSKey (bytesOfAscii "abc") 0 = .error .panicSliceRecord ∧
    getIPNSKey (bytesOfAscii "XXXXXXXXab") 0 =
      getIPNSKey (bytesOfAscii "/record/" ++ (bytesOfAscii "XXXXXXXXab").drop 8) 0 :=
  ⟨(getIPNSKey_no_header_check (bytesOfAscii "abc") 0).1 (by decide),
   (getIPNSKey_no_header_check (bytesOfAscii "XXXXXXXXab") 0).2 (by decide)⟩

/-- C2 counterexample: an input that does not start with /record/ (here its
first 8 bytes are AAAAAAAA) on which topic-to-key conversion succeeds. -/
theorem getIPNSKey_wrong_header_succeeds :
    badHeaderTopic.take 8 ≠ bytesOfAscii "/record/" ∧
    getIPNSKey badHeaderTopic 0 = .ok scenarioKeyV0 :=
  ⟨by decide, rfl⟩

/-- C6 counterexample: on a topic whose remainder is not base64, requesting
output version 5 fails with the base64 error, not UnsupportedCIDVersion. -/
theorem getIPNSKey_decode_error_before_version :
    getIPNSKey badB64Topic 5 = .error .base64Corrupt ∧
    getIPNSKey badB64Topic 5 ≠ .error (.unsupportedCIDVersion 5) :=
  ⟨rfl, by decide⟩

/-- C6 (amended): for every topic that decodes (it succeeds at output
version 0) and every output version other than 0 and 1, getIPNSKey fails
with the unsupported-version error and emits no identifier. -/
theorem getIPNSKey_unsupported_version (t : Bytes) (v : Int) (k0 : Bytes)
    (h0 : getIPNSKey t 0 = .ok k0) (hv0 : v ≠ 0) (hv1 : v ≠ 1) :
    getIPNSKey t v = .error (.unsupportedCIDVersion v) := by
  rw [getIPNSKey] at h0
  rw [getIPNSKey]
  by_cases h8 : t.length < 8
  · rw [if_pos h8] at h0
    exact absurd h0 (by simp)
  · rw [if_neg h8] at h0 ⊢
    cases hb : b64Decode (t.drop 8) with
    | none =>
      rw [hb] at h0
      simp at h0
    | some decoded =>
      rw [hb] at h0
      dsimp only at h0 ⊢
      by_cases h6 : decoded.length < 6
      · rw [if_pos h6] at h0
        exact absurd h0 (by simp)
      · rw [if_neg h6] at h0 ⊢
        cases hc : cidCast (decoded.drop 6) with
        | error e =>
          rw [hc] at h0
          simp at h0
        | ok c =>
          dsimp only
          rw [if_neg hv0, if_neg hv1]

/-- Witness for the amended C6 claim: scenario A's topic with version 2. -/
theorem getIPNSKey_unsupported_version_witness :
    getIPNSKey scenarioTopic 2 = .error (.unsupportedCIDVersion 2) :=
  getIPNSKey_unsupported_version scenarioTopic 2 scenarioKeyV0 rfl
    (by decide) (by decide)

/-- C7: converting the concrete v0 identifier of scenario A yields exactly
the documented topic, and converting that topic back at output version 1
yields exactly the documented v1 identifier. -/
theorem scenarioA_key_topic_roundtrip :
    getPubSubTopic scenarioKeyV0 = .ok scenarioTopic ∧
    getIPNSKey scenarioTopic 1 = .ok scenarioKeyV1 :=
  ⟨rfl, rfl⟩

/-- C5: for every topic string the DHT rendezvous key computation succeeds
(its only error path is the hash function lookup, which cannot fail for
sha2-256) and produces exactly the CID-v1, raw-codec, base32-displayed
wrap of the sha2-256 digest of floodsub: plus the topic, as the spec
describes. -/
theorem getDHTRendezvousKey_spec (topic : Bytes) :
    getDHTRendezvousKey topic = .ok (specDHTRendezvousKey topic) := by
  have h1 : putUvarint 1 = [1] := rfl
  have h2 : putUvarint 0x55 = [85] := rfl
  rw [getDHTRendezvousKey, mhSum, if_pos rfl]
  dsimp only
  rw [cidString, newCidV1, h1, h2]
  have hv0 : cidIsV0Form
      ([1] ++ [85] ++ 18 :: 32 :: sha256 (bytesOfAscii "floodsub:" ++ topic)) = false := by
    simp [cidIsV0Form]
  rw [hv0]
  simp only [Bool.false_eq_true, if_false]
  rfl

theorem ipnsHeader_drop (x : Bytes) : (bytesOfAscii "/ipns/" ++ x).drop 6 = x := rfl

theorem byteOK_append {l1 l2 : Bytes} (h1 : ByteOK l1) (h2 : ByteOK l2) :
    ByteOK (l1 ++ l2) := fun x hx => (List.mem_append.mp hx).elim (h1 x) (h2 x)

theorem cidIsV0Form_sha (d : Bytes) (hlen : d.length = 32) :
    cidIsV0Form (0x12 :: 0x20 :: d) = true := by
  simp [cidIsV0Form, hlen]

theorem mhDecode_sha (d : Bytes) (hlen : d.length = 32) :
    mhDecode (0x12 :: 0x20 :: d) = .ok (0x12, d) := by
  rw [mhDecode, if_neg (by simp [hlen])]
  rw [readUvarint_single 0x12 _ (by omega)]
  dsimp only
  rw [readUvarint_single 0x20 _ (by omega)]
  dsimp only
  rw [if_neg (by norm_num), if_neg (by omega)]

theorem mhCast_sha (d : Bytes) (hlen : d.length = 32) :
    mhCast (0x12 :: 0x20 :: d) = .ok (0x12 :: 0x20 :: d) := by
  rw [mhCast, mhDecode_sha d hlen]
  dsimp only
  rw [if_pos (by decide)]

theorem cidCast_sha (d : Bytes) (hlen : d.length = 32) :
    cidCast (0x12 :: 0x20 :: d) = .ok (0x12 :: 0x20 :: d) := by
  rw [cidCast, if_pos (cidIsV0Form_sha d hlen), mhCast_sha d hlen]

/-- Shared core of the amended round-trip claim: converting the topic of a
sha2-256 multihash back to a key reaches the version dispatch with that
same multihash cast as a CIDv0. -/
theorem getIPNSKey_keyToTopic_sha (d : Bytes) (hd : ByteOK d) (hlen : d.length = 32)
    (v : Int) :
    getIPNSKey (keyToTopic (bytesOfAscii "/ipns/" ++ (0x12 :: 0x20 :: d))) v =
      (if v = 0 then .ok (cidString (0x12 :: 0x20 :: d))
       else if v = 1 then .ok (cidString (newCidV1 0x72 (cidHash (0x12 :: 0x20 :: d))))
       else .error (.unsupportedCIDVersion v)) := by
  have hkey : ByteOK (bytesOfAscii "/ipns/" ++ (0x12 :: 0x20 :: d)) := by
    refine byteOK_append (by decide) ?_
    intro x hx
    simp only [List.mem_cons] at hx
    rcases hx with rfl | rfl | hx
    · omega
    · omega
    · exact hd x hx
  rw [keyToTopic, getIPNSKey]
  rw [if_neg (by rw [List.length_append, recordHeader_length]; omega)]
  rw [recordHeader_drop, b64_decode_encode _ hkey]
  dsimp only
  rw [if_neg (by simp [bytesOfAscii, hlen])]
  rw [ipnsHeader_drop, cidCast_sha d hlen]

/-- C1 (amended): the topic-key round trip holds for v0 identifiers in
their canonical base58 form, and for v1 identifiers whose multihash is a
32-byte sha2-256 digest, whose codec is libp2p-key and which are written in
the canonical base32 form; identifiers with identity-hash digests (inline
public keys, e.g. ed25519, the default key type of this tool) fail on the
way back because the bare multihash cannot be cast as a CID. -/
theorem topicKey_roundTrip (k c d : Bytes) (hd : ByteOK d) (hlen : d.length = 32)
    (hdec : cidDecode k = .ok c) :
    (c = 0x12 :: 0x20 :: d → k = b58Encode c → roundTripTopicKey k 0 = .ok k) ∧
    (c = 0x01 :: 0x72 :: 0x12 :: 0x20 :: d → k = 98 :: b32Encode c →
      roundTripTopicKey k 1 = .ok k) := by
  constructor
  · intro hc hk
    subst hc
    have hv0 : cidIsV0Form (0x12 :: 0x20 :: d) = true := cidIsV0Form_sha d hlen
    rw [roundTripTopicKey, getPubSubTopic, hdec]
    dsimp only
    rw [if_pos (by rw [cidVersion, hv0]; rfl)]
    dsimp only
    rw [getIPNSKey_keyToTopic_sha d hd hlen 0, if_pos rfl]
    dsimp only
    rw [cidString, if_pos hv0, cidHash, if_pos hv0, ← hk]
  · intro hc hk
    subst hc
    have hv0 : cidIsV0Form (0x12 :: 0x20 :: d) = true := cidIsV0Form_sha d hlen
    have hnotv0 : cidIsV0Form (0x01 :: 0x72 :: 0x12 :: 0x20 :: d) = false := by
      simp [cidIsV0Form]
    have hhash : cidHash (0x01 :: 0x72 :: 0x12 :: 0x20 :: d) = 0x12 :: 0x20 :: d := by
      rw [cidHash, if_neg (by simp [hnotv0])]
      rw [readUvarint_single 0x01 _ (by omega)]
      dsimp only
      rw [readUvarint_single 0x72 _ (by omega)]
    rw [roundTripTopicKey, getPubSubTopic, hdec]
    dsimp only
    rw [if_neg (by rw [cidVersion, hnotv0]; simp)]
    rw [if_pos (by rw [cidVersion, hnotv0]; rfl)]
    dsimp only
    rw [hhash, getIPNSKey_keyToTopic_sha d hd hlen 1]
    rw [if_neg (by omega), if_pos rfl]
    rw [newCidV1, cidHash, if_pos hv0]
    have hput1 : putUvarint 1 = [1] := rfl
    have hput114 : putUvarint 0x72 = [114] := rfl
    rw [hput1, hput114]
    simp only [List.cons_append, List.nil_append]
    rw [cidString, hnotv0]
    simp only [Bool.false_eq_true, if_false]
    rw [← hk]

/-- Witness for the amended C1 claim at scenario A's concrete identifiers:
the v0 form round-trips at version 0, the canonical v1 form at version 1. -/
theorem topicKey_roundTrip_witness :
    roundTripTopicKey scenarioKeyV0 0 = .ok scenarioKeyV0 ∧
    roundTripTopicKey scenarioKeyV1 1 = .ok scenarioKeyV1 :=
  ⟨(topicKey_roundTrip scenarioKeyV0 scenarioMh scenarioDigest
      (by decide) (by decide) rfl).1 rfl rfl,
   (topicKey_roundTrip scenarioKeyV1 scenarioCidV1 scenarioDigest
      (by decide) (by decide) rfl).2 rfl rfl⟩

/-- C1 counterexample: a valid version-1 identifier (identity multihash of
an ed25519-shaped key, the kind this tool creates by default) whose round
trip at version 1 fails instead of returning the identifier. -/
theorem topicKey_roundTrip_identity_fails :
    cidDecode edIdKey = .ok edIdCid ∧
    cidVersion edIdCid = 1 ∧
    roundTripTopicKey edIdKey 1 = .error (.inr (.cid (.badVersion 0))) ∧
    roundTripTopicKey edIdKey 1 ≠ .ok edIdKey :=
  ⟨rfl, rfl, rfl, by decide⟩

/-! ## Record operations: embedded public key, required fields, parsing -/

theorem shaRound_length (st : List Nat) (p : Nat × Nat) (h : st.length = 8) :
    (shaRound st p).length = 8 := by
  obtain ⟨kk, ww⟩ := p
  rcases st with _ | ⟨a, _ | ⟨b, _ | ⟨c, _ | ⟨d, _ | ⟨e, _ | ⟨f, _ | ⟨g, _ | ⟨k, _ | ⟨x, t⟩⟩⟩⟩⟩⟩⟩⟩⟩ <;>
    simp only [List.length_cons, List.length_nil] at h <;>
    first
      | rfl
      | omega

theorem foldl_shaRound_length (ps : List (Nat × Nat)) : ∀ (st : List Nat),
    st.length = 8 → (ps.foldl shaRound st).length = 8 := by
  induction ps with
  | nil => intro st h; simpa using h
  | cons p ps ih =>
    intro st h
    rw [List.foldl_cons]
    exact ih _ (shaRound_length st p h)

theorem shaBlock_length (h : List Nat) (b : Bytes) (hh : h.length = 8) :
    (shaBlock h b).length = 8 := by
  have hfin := foldl_shaRound_length (shaK.zip (extendW 48 (toWords b))) h hh
  simp [shaBlock, hh, hfin]

theorem foldl_shaBlock_length (bl : List Bytes) : ∀ (h : List Nat),
    h.length = 8 → (bl.foldl shaBlock h).length = 8 := by
  induction bl with
  | nil => intro h hh; simpa using hh
  | cons b bl ih =>
    intro h hh
    rw [List.foldl_cons]
    exact ih _ (shaBlock_length h b hh)

theorem flatMap_be32_length (l : List Nat) : (l.flatMap be32).length = 4 * l.length := by
  induction l with
  | nil => rfl
  | cons a t ih => simp [be32, ih]; omega

theorem sha256_length (msg : Bytes) : (sha256 msg).length = 32 := by
  rw [sha256]
  have h8 := foldl_shaBlock_length
    (toBlocks (shaPad msg).length (shaPad msg)) shaH0 rfl
  simp only [flatMap_be32_length, h8]

/-- C3: the embedded public key field of a created record is set exactly
when peer.IDFromPublicKey used the sha2-256 hashing rule (the marshalled
key exceeds the 42-byte inline threshold), equivalently when the record's
identifier is a sha2-256 multihash, from which the key cannot be recovered;
with the identity rule the field is left unset. -/
theorem embeddedPublicKey_iff (sign : Bytes → Bytes) (val : Bytes) (seq : Nat)
    (eol : GoTime) (ttlDur : Int) (pub : Bytes) (rec : IpnsEntry)
    (h : embedPublicKey pub (ipnsCreate sign val seq eol ttlDur) = .ok rec) :
    (rec.pubKey ≠ none ↔ 42 < pub.length) ∧
    (rec.pubKey ≠ none ↔ ∃ dg, mhDecode (idFromPublicKey pub) = .ok (0x12, dg)) := by
  by_cases hlen : pub.length ≤ 42
  · have hid : idFromPublicKey pub = 0x00 :: (putUvarint pub.length ++ pub) := by
      rw [idFromPublicKey]
      simp [hlen, mhSum]
    have hputlen : putUvarint pub.length = [pub.length] := by
      rw [putUvarint_eq]
      exact if_pos (by omega)
    have hdec : mhDecode (idFromPublicKey pub) = .ok (0, pub) := by
      rw [hid, hputlen]
      simp only [List.cons_append, List.nil_append]
      rw [mhDecode, if_neg (by simp)]
      rw [readUvarint_single 0 _ (by omega)]
      dsimp only
      rw [readUvarint_single pub.length _ (by omega)]
      dsimp only
      rw [if_neg (by omega), if_neg (by omega)]
    rw [embedPublicKey, hdec] at h
    dsimp only at h
    rw [if_neg (by simp)] at h
    cases hu : unmarshalPublicKey pub with
    | none => rw [hu] at h; simp at h
    | some kd =>
      rw [hu] at h
      dsimp only at h
      injection h with h'
      have hpk : rec.pubKey = none := by rw [← h']; rfl
      constructor
      · rw [hpk]; simp; omega
      · rw [hpk]; simp [hdec]
  · have hid : idFromPublicKey pub = 0x12 :: 0x20 :: sha256 pub := by
      rw [idFromPublicKey]
      simp [hlen, mhSum]
    have hdec : mhDecode (idFromPublicKey pub) = .ok (0x12, sha256 pub) := by
      rw [hid]
      exact mhDecode_sha _ (sha256_length pub)
    rw [embedPublicKey, hdec] at h
    dsimp only at h
    rw [if_pos (by omega)] at h
    injection h with h'
    have hpk : rec.pubKey = some pub := by rw [← h']
    constructor
    · rw [hpk]; simp; omega
    · rw [hpk]
      refine ⟨fun _ => ⟨sha256 pub, hdec⟩, fun _ => by simp⟩

/-- Witness for C3 at a concrete 36-byte (identity-rule) key: the record
is created, embedding succeeds, and the field stays unset. -/
theorem embeddedPublicKey_iff_witness :
    ((ipnsCreate demoSign (bytesOfAscii "v") 1 demoEol 0).pubKey ≠ none ↔
      42 < demoPubInline.length) ∧
    ((ipnsCreate demoSign (bytesOfAscii "v") 1 demoEol 0).pubKey ≠ none ↔
      ∃ dg, mhDecode (idFromPublicKey demoPubInline) = .ok (0x12, dg)) :=
  embeddedPublicKey_iff demoSign (bytesOfAscii "v") 1 demoEol 0 demoPubInline _ rfl

theorem pbUnmarshal_required (data : Bytes) (e : IpnsEntry)
    (h : pbUnmarshal data = .ok e) :
    e.value.isSome = true ∧ e.signature.isSome = true := by
  rw [pbUnmarshal] at h
  cases hl : pbDecodeLoop (data.length + 1) data IpnsEntry.empty with
  | error err => rw [hl] at h; simp at h
  | ok e0 =>
    rw [hl] at h
    dsimp only at h
    by_cases hv : e0.value.isNone
    · rw [if_pos hv] at h; simp at h
    · rw [if_neg hv] at h
      by_cases hs : e0.signature.isNone
      · rw [if_pos hs] at h; simp at h
      · rw [if_neg hs] at h
        injection h with h'
        subst h'
        cases hvv : e0.value <;> cases hss : e0.signature <;> simp_all

/-- C8 (amended): the wire decoder enforces only the two proto2 required
fields: every successfully decoded record carries value and signature
bytes (their absence is a MalformedRecord failure); a missing validityType
defaults to EOL rather than failing, a missing validity fails later at
timestamp parsing, and a missing sequenceNumber survives decoding and then
aborts the printing step with a nil-pointer dereference, not with a
MalformedRecord error. -/
theorem parse_required_fields :
    (∀ (data : Bytes) (e : IpnsEntry), pbUnmarshal data = .ok e →
      e.value.isSome = true ∧ e.signature.isSome = true) ∧
    parseIPNSRecord recNoSequence = .error .nilSequenceDeref :=
  ⟨fun data e h => pbUnmarshal_required data e h, rfl⟩

/-- Witness for the amended C8 claim: a concrete record with garbage
signature bytes decodes, and indeed carries both required fields. -/
theorem parse_required_fields_witness :
    (IpnsEntry.mk (some [97]) (some [1, 2, 3]) (some 0)
      (some (bytesOfAscii "2021-01-02T03:04:05Z")) (some 1) none none).value.isSome = true ∧
    (IpnsEntry.mk (some [97]) (some [1, 2, 3]) (some 0)
      (some (bytesOfAscii "2021-01-02T03:04:05Z")) (some 1) none none).signature.isSome = true :=
  parse_required_fields.1 recGarbageSig _ rfl

/-- C8 counterexample: a byte sequence whose validityType field is absent
is parsed successfully (the enum defaults to EOL), not rejected with
MalformedRecord. -/
theorem parse_missing_validityType_succeeds :
    (pbUnmarshal recNoValidityType).toOption.map IpnsEntry.validityType = some none ∧
    parseIPNSRecord recNoValidityType =
      .ok ⟨[97], 1, ⟨2021, 1, 2, 3, 4, 5, 0⟩, 0, []⟩ :=
  ⟨rfl, rfl⟩

/-- C9 (amended): parsing never verifies the signature: for every byte
sequence whose wire layout decodes with the required fields, whose
validityType is EOL, whose validity bytes parse as a timestamp and whose
sequence field is present, parsing succeeds, with no condition whatsoever
on the signature bytes. -/
theorem parse_ignores_signature (data : Bytes) (e : IpnsEntry) (t : GoTime) (s : Nat)
    (hd : pbUnmarshal data = .ok e)
    (hvt : e.validityType.getD 0 = 0)
    (hval : parseRFC3339 (e.validity.getD []) = .ok t)
    (hseq : e.sequence = some s) :
    parseIPNSRecord data = .ok ⟨e.value.getD [], s, t, goInt64OfNat (e.ttl.getD 0),
      if 0 < (e.pubKey.getD []).length then multibaseEncode16 (e.pubKey.getD [])
      else []⟩ := by
  rw [parseIPNSRecord, hd]
  dsimp only
  rw [getEOL, if_neg (by omega), hval]
  dsimp only
  rw [hseq]

/-- Witness for the amended C9 claim: the garbage-signature record parses
successfully. -/
theorem parse_ignores_signature_witness :
    parseIPNSRecord recGarbageSig =
      .ok ⟨[97], 1, ⟨2021, 1, 2, 3, 4, 5, 0⟩, 0, []⟩ :=
  parse_ignores_signature recGarbageSig
    (IpnsEntry.mk (some [97]) (some [1, 2, 3]) (some 0)
      (some (bytesOfAscii "2021-01-02T03:04:05Z")) (some 1) none none)
    ⟨2021, 1, 2, 3, 4, 5, 0⟩ 1 rfl rfl rfl rfl

/-- C9 counterexample: a byte sequence that decodes with every required
field present and validityType EOL, yet fails to parse, because its
validity bytes are not a timestamp; the signature plays no role. -/
theorem parse_fails_with_unparseable_validity :
    pbUnmarshal recBadValidity =
      .ok ⟨some [97], some [98], some 0, some [120], some 1, none, none⟩ ∧
    parseIPNSRecord recBadValidity = .error (.eolErr .parseFail) :=
  ⟨rfl, rfl⟩

/-! ## RFC3339 format and parse round trip -/

theorem padDigits_length : ∀ (k n : Nat), (padDigits k n).length = k := by
  intro k
  induction k with
  | zero => intro n; rfl
  | succ k ih =>
    intro n
    rw [padDigits, List.length_append, ih]
    simp

theorem padDigits_digits : ∀ (k n : Nat), ∀ c ∈ padDigits k n, isDigitB c = true := by
  intro k
  induction k with
  | zero => intro n c hc; simp [padDigits] at hc
  | succ k ih =>
    intro n c hc
    rw [padDigits] at hc
    rcases List.mem_append.mp hc with h | h
    · exact ih _ c h
    · simp at h
      subst h
      simp [isDigitB]
      omega

theorem digitsVal_append_digit (l : Bytes) (c : Nat) :
    digitsVal (l ++ [c]) = digitsVal l * 10 + (c - 48) := by
  rw [digitsVal, digitsVal, List.foldl_append]
  rfl

theorem digitsVal_padDigits : ∀ (k n : Nat), n < 10 ^ k →
    digitsVal (padDigits k n) = n := by
  intro k
  induction k with
  | zero => intro n h; interval_cases n; rfl
  | succ k ih =>
    intro n h
    rw [padDigits, digitsVal_append_digit, ih (n / 10) (by omega)]
    omega

theorem readNDigits_pad (k v : Nat) (rest : Bytes) (hv : v < 10 ^ k) :
    readNDigits k (padDigits k v ++ rest) = some (v, rest) := by
  have hlen : (padDigits k v).length = k := padDigits_length k v
  have htake := List.take_left (padDigits k v) rest
  have hdrop := List.drop_left (padDigits k v) rest
  rw [hlen] at htake hdrop
  rw [readNDigits, htake, hdrop]
  rw [if_pos ⟨hlen, List.all_eq_true.mpr (fun c hc => padDigits_digits k v c hc)⟩]
  rw [digitsVal_padDigits k v hv]

theorem expectByte_cons (b : Nat) (r : Bytes) : expectByte b (b :: r) = some r := by
  simp [expectByte]

theorem mem_of_mem_dropWhile {p : Nat → Bool} :
    ∀ {l : Bytes} {c : Nat}, c ∈ l.dropWhile p → c ∈ l := by
  intro l
  induction l with
  | nil => intro c h; simpa using h
  | cons a t ih =>
    intro c h
    rw [List.dropWhile_cons] at h
    by_cases hp : p a
    · rw [if_pos hp] at h
      exact List.mem_cons_of_mem _ (ih h)
    · rw [if_neg hp] at h
      exact h

theorem mem_trimZeroDigits {c : Nat} {l : Bytes} (h : c ∈ trimZeroDigits l) : c ∈ l := by
  rw [trimZeroDigits, List.mem_reverse] at h
  exact List.mem_reverse.mp (mem_of_mem_dropWhile h)

theorem length_dropWhile_le {p : Nat → Bool} : ∀ (l : Bytes),
    (l.dropWhile p).length ≤ l.length := by
  intro l
  induction l with
  | nil => simp
  | cons a t ih =>
    rw [List.dropWhile_cons]
    by_cases hp : p a
    · rw [if_pos hp]
      simp
      omega
    · rw [if_neg hp]

theorem trimZeroDigits_length_le (l : Bytes) : (trimZeroDigits l).length ≤ l.length := by
  rw [trimZeroDigits]
  calc ((l.reverse.dropWhile (· = 48)).reverse).length
      = (l.reverse.dropWhile (· = 48)).length := List.length_reverse _
    _ ≤ l.reverse.length := length_dropWhile_le _
    _ = l.length := List.length_reverse _

theorem trimZeroDigits_append_zero (l : Bytes) :
    trimZeroDigits (l ++ [48]) = trimZeroDigits l := by
  rw [trimZeroDigits, trimZeroDigits, List.reverse_append]
  simp [List.dropWhile_cons]

theorem trimZeroDigits_append_nonzero (l : Bytes) (x : Nat) (hx : x ≠ 48) :
    trimZeroDigits (l ++ [x]) = l ++ [x] := by
  rw [trimZeroDigits, List.reverse_append]
  simp [List.dropWhile_cons, hx]

theorem trimZeroDigits_value (l : Bytes) :
    digitsVal l =
      digitsVal (trimZeroDigits l) * 10 ^ (l.length - (trimZeroDigits l).length) := by
  induction l using List.reverseRecOn with
  | nil => rfl
  | append_singleton l x ih =>
    by_cases hx : x = 48
    · subst hx
      have hle := trimZeroDigits_length_le l
      rw [digitsVal_append_digit, trimZeroDigits_append_zero, ih]
      have hlen : (l ++ [48]).length - (trimZeroDigits l).length =
          (l.length - (trimZeroDigits l).length) + 1 := by
        rw [List.length_append]
        simp
        omega
      rw [hlen, pow_succ]
      ring
    · rw [trimZeroDigits_append_nonzero l x hx]
      simp

theorem takeWhile_append_all {p : Nat → Bool} :
    ∀ (l r : Bytes), (∀ c ∈ l, p c = true) →
    (l ++ r).takeWhile p = l ++ r.takeWhile p := by
  intro l
  induction l with
  | nil => intro r h; rfl
  | cons a t ih =>
    intro r h
    rw [List.cons_append, List.takeWhile_cons, if_pos (h a (by simp))]
    rw [ih r (fun c hc => h c (List.mem_cons_of_mem _ hc))]
    rfl

theorem parseFracOrZ_dot (fr : Bytes) : parseFracOrZ (46 :: fr) =
    (if fr.drop (fr.takeWhile isDigitB).length = [90] ∧
        1 ≤ (fr.takeWhile isDigitB).length ∧ (fr.takeWhile isDigitB).length ≤ 9 then
      some (digitsVal (fr.takeWhile isDigitB) * 10 ^ (9 - (fr.takeWhile isDigitB).length))
    else none) := rfl

theorem daysInMonth_le (y m : Nat) : daysInMonth y m ≤ 31 := by
  rw [daysInMonth]
  split
  · split <;> norm_num
  · split <;> norm_num

theorem parseRFC3339_formatRFC3339 (t : GoTime) (h : ValidGoTime t) :
    parseRFC3339 (formatRFC3339 t) = .ok t := by
  obtain ⟨y, mo, dd, hh, mi, ss, ns⟩ := t
  obtain ⟨hy, hm1, hm2, hd1, hd2, hhh, hmi, hss, hns⟩ := h
  have hy : y ≤ 9999 := hy
  have hm1 : 1 ≤ mo := hm1
  have hm2 : mo ≤ 12 := hm2
  have hd1 : 1 ≤ dd := hd1
  have hd2 : dd ≤ daysInMonth y mo := hd2
  have hdm : daysInMonth y mo ≤ 31 := daysInMonth_le y mo
  have hhh : hh ≤ 23 := hhh
  have hmi : mi ≤ 59 := hmi
  have hss : ss ≤ 59 := hss
  have hns : ns < 10 ^ 9 := hns
  rw [parseRFC3339, parseRFC3339Core, formatRFC3339]
  simp only [List.append_assoc, List.cons_append]
  rw [readNDigits_pad 4 y _ (by omega)]
  simp only [Option.bind_eq_bind, Option.some_bind]
  rw [expectByte_cons]
  simp only [Option.bind_eq_bind, Option.some_bind]
  rw [readNDigits_pad 2 mo _ (by omega)]
  simp only [Option.bind_eq_bind, Option.some_bind]
  rw [expectByte_cons]
  simp only [Option.bind_eq_bind, Option.some_bind]
  rw [readNDigits_pad 2 dd _ (by omega)]
  simp only [Option.bind_eq_bind, Option.some_bind]
  rw [expectByte_cons]
  simp only [Option.bind_eq_bind, Option.some_bind]
  rw [readNDigits_pad 2 hh _ (by omega)]
  simp only [Option.bind_eq_bind, Option.some_bind]
  rw [expectByte_cons]
  simp only [Option.bind_eq_bind, Option.some_bind]
  rw [readNDigits_pad 2 mi _ (by omega)]
  simp only [Option.bind_eq_bind, Option.some_bind]
  rw [expectByte_cons]
  simp only [Option.bind_eq_bind, Option.some_bind]
  rw [readNDigits_pad 2 ss _ (by omega)]
  simp only [Option.bind_eq_bind, Option.some_bind]
  by_cases hns0 : ns = 0
  · subst hns0
    rw [show fmtFrac 0 = [] from rfl]
    simp only [List.nil_append]
    rw [show parseFracOrZ [90] = some 0 from rfl]
    simp only [Option.bind_eq_bind, Option.some_bind]
    rw [if_pos ⟨hm1, hm2, hd1, hd2, hhh, hmi, hss⟩]
  · rw [fmtFrac, if_neg hns0]
    simp only [List.cons_append]
    rw [parseFracOrZ_dot]
    have hdigs : ∀ c ∈ trimZeroDigits (padDigits 9 ns), isDigitB c = true :=
      fun c hc => padDigits_digits 9 ns c (mem_trimZeroDigits hc)
    have hds : ((trimZeroDigits (padDigits 9 ns)) ++ [90]).takeWhile isDigitB =
        trimZeroDigits (padDigits 9 ns) := by
      rw [takeWhile_append_all _ _ hdigs]
      simp [List.takeWhile_cons, isDigitB]
    have hTlen9 : (trimZeroDigits (padDigits 9 ns)).length ≤ 9 := by
      have := trimZeroDigits_length_le (padDigits 9 ns)
      rw [padDigits_length] at this
      exact this
    have hval : digitsVal (trimZeroDigits (padDigits 9 ns)) *
        10 ^ (9 - (trimZeroDigits (padDigits 9 ns)).length) = ns := by
      have h1 := trimZeroDigits_value (padDigits 9 ns)
      rw [digitsVal_padDigits 9 ns hns, padDigits_length] at h1
      exact h1.symm
    have hT1 : 1 ≤ (trimZeroDigits (padDigits 9 ns)).length := by
      by_contra hc
      have hTnil : trimZeroDigits (padDigits 9 ns) = [] :=
        List.length_eq_zero.mp (by omega)
      rw [hTnil] at hval
      simp [digitsVal] at hval
      exact hns0 hval.symm
    rw [hds]
    rw [if_pos ⟨List.drop_left _ _, hT1, hTlen9⟩]
    simp only [Option.bind_eq_bind, Option.some_bind]
    rw [hval]
    rw [if_pos ⟨hm1, hm2, hd1, hd2, hhh, hmi, hss⟩]

/-! ## protobuf encode/decode round trip for created records -/

theorem putUvarint_length_pos (n : Nat) : 1 ≤ (putUvarint n).length := by
  rw [putUvarint_eq]
  split
  · simp
  · simp

theorem pbDecodeLoop_nil (fuel : Nat) (e : IpnsEntry) :
    pbDecodeLoop fuel [] e = .ok e := by
  cases fuel <;> rfl

theorem pbStep_value (fuel : Nat) (hf : 1 ≤ fuel) (b rest : Bytes) (e : IpnsEntry)
    (hb : b.length < 2 ^ 64) :
    pbDecodeLoop fuel (encBytesField 1 b ++ rest) e =
      pbDecodeLoop (fuel - 1) rest { e with value := some b } := by
  obtain ⟨f, rfl⟩ : ∃ f, fuel = f + 1 := ⟨fuel - 1, by omega⟩
  rw [Nat.add_sub_cancel]
  have hd : encBytesField 1 b ++ rest = 10 :: (putUvarint b.length ++ (b ++ rest)) := by
    simp [encBytesField]
  have hstep : pbStepField (10 :: (putUvarint b.length ++ (b ++ rest))) e =
      .ok ({ e with value := some b }, rest) := by
    rw [pbStepField, pbReadUvarint_single 10 _ (by omega)]
    dsimp only
    norm_num
    rw [pbReadBytes_enc b rest hb]
  rw [hd, pbDecodeLoop, hstep]

theorem pbStep_signature (fuel : Nat) (hf : 1 ≤ fuel) (b rest : Bytes) (e : IpnsEntry)
    (hb : b.length < 2 ^ 64) :
    pbDecodeLoop fuel (encBytesField 2 b ++ rest) e =
      pbDecodeLoop (fuel - 1) rest { e with signature := some b } := by
  obtain ⟨f, rfl⟩ : ∃ f, fuel = f + 1 := ⟨fuel - 1, by omega⟩
  rw [Nat.add_sub_cancel]
  have hd : encBytesField 2 b ++ rest = 18 :: (putUvarint b.length ++ (b ++ rest)) := by
    simp [encBytesField]
  have hstep : pbStepField (18 :: (putUvarint b.length ++ (b ++ rest))) e =
      .ok ({ e with signature := some b }, rest) := by
    rw [pbStepField, pbReadUvarint_single 18 _ (by omega)]
    dsimp only
    norm_num
    rw [pbReadBytes_enc b rest hb]
  rw [hd, pbDecodeLoop, hstep]

theorem pbStep_validityType (fuel : Nat) (hf : 1 ≤ fuel) (v : Nat) (rest : Bytes)
    (e : IpnsEntry) (hv : v < 2 ^ 64) :
    pbDecodeLoop fuel (encVarintField 3 v ++ rest) e =
      pbDecodeLoop (fuel - 1) rest { e with validityType := some (v % 2 ^ 32) } := by
  obtain ⟨f, rfl⟩ : ∃ f, fuel = f + 1 := ⟨fuel - 1, by omega⟩
  rw [Nat.add_sub_cancel]
  have hd : encVarintField 3 v ++ rest = 24 :: (putUvarint v ++ rest) := by
    simp [encVarintField]
  have hstep : pbStepField (24 :: (putUvarint v ++ rest)) e =
      .ok ({ e with validityType := some (v % 2 ^ 32) }, rest) := by
    rw [pbStepField, pbReadUvarint_single 24 _ (by omega)]
    dsimp only
    norm_num
    rw [pbReadUvarint_putUvarint v rest hv]
  rw [hd, pbDecodeLoop, hstep]

theorem pbStep_validity (fuel : Nat) (hf : 1 ≤ fuel) (b rest : Bytes) (e : IpnsEntry)
    (hb : b.length < 2 ^ 64) :
    pbDecodeLoop fuel (encBytesField 4 b ++ rest) e =
      pbDecodeLoop (fuel - 1) rest { e with validity := some b } := by
  obtain ⟨f, rfl⟩ : ∃ f, fuel = f + 1 := ⟨fuel - 1, by omega⟩
  rw [Nat.add_sub_cancel]
  have hd : encBytesField 4 b ++ rest = 34 :: (putUvarint b.length ++ (b ++ rest)) := by
    simp [encBytesField]
  have hstep : pbStepField (34 :: (putUvarint b.length ++ (b ++ rest))) e =
      .ok ({ e with validity := some b }, rest) := by
    rw [pbStepField, pbReadUvarint_single 34 _ (by omega)]
    dsimp only
    norm_num
    rw [pbReadBytes_enc b rest hb]
  rw [hd, pbDecodeLoop, hstep]

theorem pbStep_sequence (fuel : Nat) (hf : 1 ≤ fuel) (v : Nat) (rest : Bytes)
    (e : IpnsEntry) (hv : v < 2 ^ 64) :
    pbDecodeLoop fuel (encVarintField 5 v ++ rest) e =
      pbDecodeLoop (fuel - 1) rest { e with sequence := some v } := by
  obtain ⟨f, rfl⟩ : ∃ f, fuel = f + 1 := ⟨fuel - 1, by omega⟩
  rw [Nat.add_sub_cancel]
  have hd : encVarintField 5 v ++ rest = 40 :: (putUvarint v ++ rest) := by
    simp [encVarintField]
  have hstep : pbStepField (40 :: (putUvarint v ++ rest)) e =
      .ok ({ e with sequence := some v }, rest) := by
    rw [pbStepField, pbReadUvarint_single 40 _ (by omega)]
    dsimp only
    norm_num
    rw [pbReadUvarint_putUvarint v rest hv]
  rw [hd, pbDecodeLoop, hstep]

theorem pbStep_ttl (fuel : Nat) (hf : 1 ≤ fuel) (v : Nat) (rest : Bytes)
    (e : IpnsEntry) (hv : v < 2 ^ 64) :
    pbDecodeLoop fuel (encVarintField 6 v ++ rest) e =
      pbDecodeLoop (fuel - 1) rest { e with ttl := some v } := by
  obtain ⟨f, rfl⟩ : ∃ f, fuel = f + 1 := ⟨fuel - 1, by omega⟩
  rw [Nat.add_sub_cancel]
  have hd : encVarintField 6 v ++ rest = 48 :: (putUvarint v ++ rest) := by
    simp [encVarintField]
  have hstep : pbStepField (48 :: (putUvarint v ++ rest)) e =
      .ok ({ e with ttl := some v }, rest) := by
    rw [pbStepField, pbReadUvarint_single 48 _ (by omega)]
    dsimp only
    norm_num
    rw [pbReadUvarint_putUvarint v rest hv]
  rw [hd, pbDecodeLoop, hstep]

theorem pbStep_pubKey (fuel : Nat) (hf : 1 ≤ fuel) (b rest : Bytes) (e : IpnsEntry)
    (hb : b.length < 2 ^ 64) :
    pbDecodeLoop fuel (encBytesField 7 b ++ rest) e =
      pbDecodeLoop (fuel - 1) rest { e with pubKey := some b } := by
  obtain ⟨f, rfl⟩ : ∃ f, fuel = f + 1 := ⟨fuel - 1, by omega⟩
  rw [Nat.add_sub_cancel]
  have hd : encBytesField 7 b ++ rest = 58 :: (putUvarint b.length ++ (b ++ rest)) := by
    simp [encBytesField]
  have hstep : pbStepField (58 :: (putUvarint b.length ++ (b ++ rest))) e =
      .ok ({ e with pubKey := some b }, rest) := by
    rw [pbStepField, pbReadUvarint_single 58 _ (by omega)]
    dsimp only
    norm_num
    rw [pbReadBytes_enc b rest hb]
  rw [hd, pbDecodeLoop, hstep]

theorem pbDecodeLoop_encode (v s va : Bytes) (n : Nat) (tl : Option Nat)
    (pk : Option Bytes) (fuel : Nat) (hf : 7 ≤ fuel)
    (hv : v.length < 2 ^ 64) (hs : s.length < 2 ^ 64) (hva : va.length < 2 ^ 64)
    (hn : n < 2 ^ 64) (htl : ∀ t ∈ tl, t < 2 ^ 64) (hpk : ∀ p ∈ pk, p.length < 2 ^ 64) :
    pbDecodeLoop fuel
      (encBytesField 1 v ++ (encBytesField 2 s ++ (encVarintField 3 0 ++
        (encBytesField 4 va ++ (encVarintField 5 n ++
          (optField tl (encVarintField 6) ++ optField pk (encBytesField 7)))))))
      IpnsEntry.empty =
      .ok ⟨some v, some s, some 0, some va, some n, tl, pk⟩ := by
  rw [pbStep_value fuel (by omega) v _ _ hv]
  rw [pbStep_signature (fuel - 1) (by omega) s _ _ hs]
  rw [pbStep_validityType (fuel - 1 - 1) (by omega) 0 _ _ (by norm_num)]
  rw [pbStep_validity (fuel - 1 - 1 - 1) (by omega) va _ _ hva]
  rw [pbStep_sequence (fuel - 1 - 1 - 1 - 1) (by omega) n _ _ hn]
  cases tl with
  | none =>
    cases pk with
    | none =>
      dsimp only [optField]
      rw [List.nil_append, pbDecodeLoop_nil]
      rfl
    | some p =>
      dsimp only [optField]
      rw [List.nil_append, ← List.append_nil (encBytesField 7 p)]
      rw [pbStep_pubKey (fuel - 1 - 1 - 1 - 1 - 1) (by omega) p [] _ (hpk p rfl)]
      rw [pbDecodeLoop_nil]
      rfl
  | some t =>
    rw [show optField (some t) (encVarintField 6) = encVarintField 6 t from rfl]
    cases pk with
    | none =>
      rw [show optField (none : Option Bytes) (encBytesField 7) = [] from rfl]
      rw [pbStep_ttl (fuel - 1 - 1 - 1 - 1 - 1) (by omega) t [] _ (htl t rfl)]
      rw [pbDecodeLoop_nil]
      rfl
    | some p =>
      rw [show optField (some p) (encBytesField 7) = encBytesField 7 p from rfl]
      rw [pbStep_ttl (fuel - 1 - 1 - 1 - 1 - 1) (by omega) t _ _ (htl t rfl)]
      rw [← List.append_nil (encBytesField 7 p)]
      rw [pbStep_pubKey (fuel - 1 - 1 - 1 - 1 - 1 - 1) (by omega) p [] _ (hpk p rfl)]
      rw [pbDecodeLoop_nil]
      rfl

theorem pbUnmarshal_encode (v s va : Bytes) (n : Nat) (tl : Option Nat)
    (pk : Option Bytes)
    (hv : v.length < 2 ^ 64) (hs : s.length < 2 ^ 64) (hva : va.length < 2 ^ 64)
    (hn : n < 2 ^ 64) (htl : ∀ t ∈ tl, t < 2 ^ 64) (hpk : ∀ p ∈ pk, p.length < 2 ^ 64) :
    pbUnmarshal (encodeIpnsEntry ⟨some v, some s, some 0, some va, some n, tl, pk⟩) =
      .ok ⟨some v, some s, some 0, some va, some n, tl, pk⟩ := by
  rw [pbUnmarshal]
  have hshape : encodeIpnsEntry ⟨some v, some s, some 0, some va, some n, tl, pk⟩ =
      encBytesField 1 v ++ (encBytesField 2 s ++ (encVarintField 3 0 ++
        (encBytesField 4 va ++ (encVarintField 5 n ++
          (optField tl (encVarintField 6) ++ optField pk (encBytesField 7)))))) := by
    simp [encodeIpnsEntry, optField, List.append_assoc]
  rw [hshape]
  have hlen : 6 ≤ (encBytesField 1 v ++ (encBytesField 2 s ++ (encVarintField 3 0 ++
      (encBytesField 4 va ++ (encVarintField 5 n ++
        (optField tl (encVarintField 6) ++ optField pk (encBytesField 7))))))).length := by
    have p1 := putUvarint_length_pos v.length
    have p2 := putUvarint_length_pos s.length
    have p3 := putUvarint_length_pos 0
    have p4 := putUvarint_length_pos va.length
    have p5 := putUvarint_length_pos n
    simp only [List.length_append, encBytesField, encVarintField, List.length_cons]
    omega
  rw [pbDecodeLoop_encode v s va n tl pk _ (by omega) hv hs hva hn htl hpk]
  rfl
theorem fmtFrac_length_le (ns : Nat) : (fmtFrac ns).length ≤ 10 := by
  rw [fmtFrac]
  split
  · simp
  · have h1 := trimZeroDigits_length_le (padDigits 9 ns)
    rw [padDigits_length] at h1
    simp only [List.length_cons]
    omega

theorem formatRFC3339_length_le (t : GoTime) : (formatRFC3339 t).length ≤ 30 := by
  have hf := fmtFrac_length_le t.nanos
  simp only [formatRFC3339, List.length_append, List.length_cons, List.length_nil,
    padDigits_length]
  omega

theorem goUint64OfInt_lt (n : Int) : goUint64OfInt n < 2 ^ 64 := by
  rw [goUint64OfInt]
  omega

theorem goInt64OfNat_goUint64OfInt (n : Int) (h1 : -(2 : Int) ^ 63 ≤ n)
    (h2 : n < 2 ^ 63) : goInt64OfNat (goUint64OfInt n) = n := by
  rw [goUint64OfInt, goInt64OfNat]
  split_ifs with hc <;> omega

theorem embedPublicKey_shape (pub : Bytes) (e r : IpnsEntry)
    (h : embedPublicKey pub e = .ok r) :
    r = e ∨ r = { e with pubKey := some pub } := by
  rw [embedPublicKey] at h
  cases hm : mhDecode (idFromPublicKey pub) with
  | error err => rw [hm] at h; simp at h
  | ok cd =>
    rw [hm] at h
    obtain ⟨code, digest⟩ := cd
    dsimp only at h
    by_cases hc : code ≠ 0
    · rw [if_pos hc] at h
      injection h with h
      exact Or.inr h.symm
    · rw [if_neg hc] at h
      cases hu : unmarshalPublicKey digest with
      | some kd => rw [hu] at h; injection h with h; exact Or.inl h.symm
      | none => rw [hu] at h; simp at h

theorem ipnsCreate_eq (sign : Bytes → Bytes) (val : Bytes) (seq : Nat) (eol : GoTime)
    (ttlDur : Int) :
    ipnsCreate sign val seq eol ttlDur =
      ⟨some val, some (sign (val ++ formatRFC3339 eol ++ bytesOfAscii "EOL")),
       some 0, some (formatRFC3339 eol), some seq,
       if ttlDur = 0 then none else some (goUint64OfInt ttlDur), none⟩ := rfl

theorem parse_encode_entry (v s va : Bytes) (n : Nat) (tl : Option Nat)
    (pk : Option Bytes) (t : GoTime)
    (hv : v.length < 2 ^ 64) (hs : s.length < 2 ^ 64) (hva : va.length < 2 ^ 64)
    (hn : n < 2 ^ 64) (htl : ∀ x ∈ tl, x < 2 ^ 64) (hpk : ∀ p ∈ pk, p.length < 2 ^ 64)
    (hparse : parseRFC3339 va = .ok t) :
    parseIPNSRecord (encodeIpnsEntry ⟨some v, some s, some 0, some va, some n, tl, pk⟩) =
      .ok ⟨v, n, t, goInt64OfNat (tl.getD 0),
        if 0 < (pk.getD []).length then multibaseEncode16 (pk.getD []) else []⟩ := by
  rw [parseIPNSRecord, pbUnmarshal_encode v s va n tl pk hv hs hva hn htl hpk]
  dsimp only
  rw [getEOL]
  dsimp only [Option.getD]
  rw [if_neg (by omega), hparse]

theorem createIPNSRecord_parse (sign : Bytes → Bytes) (pub : Bytes)
    (seqno ttlDur : Int) (eol : GoTime) (value rec : Bytes)
    (hcr : createIPNSRecord sign pub seqno ttlDur eol value = .ok rec)
    (heol : ValidGoTime eol)
    (hv : value.length < 2 ^ 64)
    (hsg : ∀ m : Bytes, (sign m).length < 2 ^ 64)
    (hp : pub.length < 2 ^ 64)
    (ht1 : -(2 : Int) ^ 63 ≤ ttlDur) (ht2 : ttlDur < 2 ^ 63) :
    ∃ pk : Bytes,
      parseIPNSRecord rec = .ok ⟨value, goUint64OfInt seqno, eol, ttlDur, pk⟩ := by
  rw [createIPNSRecord] at hcr
  cases hem : embedPublicKey pub (ipnsCreate sign value (goUint64OfInt seqno) eol ttlDur) with
  | error err => rw [hem] at hcr; simp at hcr
  | ok r =>
    rw [hem] at hcr
    dsimp only at hcr
    injection hcr with hcr
    subst hcr
    have hva : (formatRFC3339 eol).length < 2 ^ 64 := by
      have := formatRFC3339_length_le eol
      omega
    have htl : ∀ x ∈ (if ttlDur = 0 then none else some (goUint64OfInt ttlDur)), x < 2 ^ 64 := by
      intro x hx
      split at hx
      · simp at hx
      · simp at hx
        exact hx ▸ goUint64OfInt_lt ttlDur
    have httl : goInt64OfNat ((if ttlDur = 0 then none
        else some (goUint64OfInt ttlDur)).getD 0) = ttlDur := by
      split_ifs with h0
      · subst h0
        simp [goInt64OfNat]
      · exact goInt64OfNat_goUint64OfInt ttlDur ht1 ht2
    have hrt : parseRFC3339 (formatRFC3339 eol) = .ok eol :=
      parseRFC3339_formatRFC3339 eol heol
    rcases embedPublicKey_shape _ _ _ hem with hr | hr <;> subst hr <;>
      rw [ipnsCreate_eq]
    · have hres := parse_encode_entry value
        (sign (value ++ formatRFC3339 eol ++ bytesOfAscii "EOL")) (formatRFC3339 eol)
        (goUint64OfInt seqno)
        (if ttlDur = 0 then none else some (goUint64OfInt ttlDur)) none eol
        hv (hsg _) hva (goUint64OfInt_lt _) htl (by intro p hp0; simp at hp0) hrt
      rw [httl] at hres
      exact ⟨_, hres⟩
    · have hres := parse_encode_entry value
        (sign (value ++ formatRFC3339 eol ++ bytesOfAscii "EOL")) (formatRFC3339 eol)
        (goUint64OfInt seqno)
        (if ttlDur = 0 then none else some (goUint64OfInt ttlDur)) (some pub) eol
        hv (hsg _) hva (goUint64OfInt_lt _) htl
        (by intro p hp0; simp at hp0; exact hp0 ▸ hp) hrt
      rw [httl] at hres
      exact ⟨_, hres⟩

/-- C4: creating a record from a value, sequence number, expiry time and
ttl and parsing the resulting bytes returns the same value, the sequence
number (converted through uint64), the same expiry time and the same ttl,
for every signing function and marshalled public key, whenever the inputs
are in their go ranges (int64 sequence and ttl, a formattable time, field
payloads below 2 ^ 64 bytes). -/
theorem create_parse_roundTrip (sign : Bytes → Bytes) (pub : Bytes)
    (seqno ttlDur : Int) (eol : GoTime) (value rec : Bytes)
    (hcr : createIPNSRecord sign pub seqno ttlDur eol value = .ok rec)
    (heol : ValidGoTime eol)
    (hv : value.length < 2 ^ 64)
    (hsg : ∀ m : Bytes, (sign m).length < 2 ^ 64)
    (hp : pub.length < 2 ^ 64)
    (hs0 : 0 ≤ seqno) (hs1 : seqno < 2 ^ 63)
    (ht1 : -(2 : Int) ^ 63 ≤ ttlDur) (ht2 : ttlDur < 2 ^ 63) :
    ∃ out : ParsedRecord,
      parseIPNSRecord rec = .ok out ∧ out.value = value ∧
      (out.sequenceNumber : Int) = seqno ∧ out.eol = eol ∧ out.ttl = ttlDur := by
  obtain ⟨pk, hpk⟩ := createIPNSRecord_parse sign pub seqno ttlDur eol value rec
    hcr heol hv hsg hp ht1 ht2
  refine ⟨_, hpk, rfl, ?_, rfl, rfl⟩
  dsimp only
  rw [goUint64OfInt]
  omega

/-- C10: the sequence-number input of record creation is a signed 64-bit
integer reduced modulo 2 ^ 64: a negative input n produces, without error,
a record whose parsed sequenceNumber is n + 2 ^ 64. -/
theorem create_negative_seqno_wraps (sign : Bytes → Bytes) (pub : Bytes)
    (seqno ttlDur : Int) (eol : GoTime) (value rec : Bytes)
    (hcr : createIPNSRecord sign pub seqno ttlDur eol value = .ok rec)
    (heol : ValidGoTime eol)
    (hv : value.length < 2 ^ 64)
    (hsg : ∀ m : Bytes, (sign m).length < 2 ^ 64)
    (hp : pub.length < 2 ^ 64)
    (hs0 : seqno < 0) (hs1 : -(2 : Int) ^ 63 ≤ seqno)
    (ht1 : -(2 : Int) ^ 63 ≤ ttlDur) (ht2 : ttlDur < 2 ^ 63) :
    ∃ out : ParsedRecord,
      parseIPNSRecord rec = .ok out ∧
      (out.sequenceNumber : Int) = seqno + 2 ^ 64 := by
  obtain ⟨pk, hpk⟩ := createIPNSRecord_parse sign pub seqno ttlDur eol value rec
    hcr heol hv hsg hp ht1 ht2
  refine ⟨_, hpk, ?_⟩
  dsimp only
  rw [goUint64OfInt]
  omega

/-- Witness for C4 at the concrete demo inputs. -/
theorem create_parse_roundTrip_witness :
    ∃ out : ParsedRecord,
      parseIPNSRecord demoRec = .ok out ∧ out.value = bytesOfAscii "/ipfs/x" ∧
      (out.sequenceNumber : Int) = 5 ∧ out.eol = demoEol ∧ out.ttl = 7 :=
  create_parse_roundTrip demoSign demoPubInline 5 7 demoEol (bytesOfAscii "/ipfs/x")
    demoRec rfl (by decide) (by decide) (fun m => (by norm_num : (2 : Nat) < 2 ^ 64)) (by decide) (by decide)
    (by decide) (by decide) (by decide)

/-- Witness for C10 at sequence-number input -3. -/
theorem create_negative_seqno_wraps_witness :
    ∃ out : ParsedRecord,
      parseIPNSRecord demoRecNegSeq = .ok out ∧
      (out.sequenceNumber : Int) = -3 + 2 ^ 64 :=
  create_negative_seqno_wraps demoSign demoPubInline (-3) 7 demoEol (bytesOfAscii "v")
    demoRecNegSeq rfl (by decide) (by decide) (fun m => (by norm_num : (2 : Nat) < 2 ^ 64)) (by decide) (by decide)
    (by decide) (by decide) (by decide)
